import Mathlib

/-!
Verification of a ray tracer (bounding volume hierarchy, slab test,
sphere intersection, camera setup, vector refraction, render dispatcher).

The geometric core (`src/bounds.rs`, `src/interval.rs`, `src/hit.rs`,
`src/bvh.rs`) is embedded parametrically over a linear ordered field, so
that the same definitions can be instantiated at `ℚ` (fully executable,
for witnesses) and at `ℝ` (where square roots and trigonometric
functions are needed, for the sphere, camera and refraction code).
Machine floats are idealized as exact field arithmetic.

`Ray` and `Axis3` live in files of the repository that are not part of
the provided sources (`src/ray.rs`, `src/axis.rs`); they are modelled
from the specification where noted.
-/

namespace RT

/-- Modelled from the spec: the three coordinate axes (`src/axis.rs` is
referenced by the sources but not included; the spec describes a
partition axis chosen among X, Y, Z with tie-break X then Y then Z). -/
inductive Axis3 where
  | X
  | Y
  | Z
deriving DecidableEq, Repr

/-- Triple of field elements, mirroring `Vec3` in `src/vec3.rs`. -/
structure Vec3 (α : Type) where
  x : α
  y : α
  z : α
deriving DecidableEq, Repr

instance {α : Type} [Add α] : Add (Vec3 α) where
  add a b := ⟨a.x + b.x, a.y + b.y, a.z + b.z⟩

instance {α : Type} [Sub α] : Sub (Vec3 α) where
  sub a b := ⟨a.x - b.x, a.y - b.y, a.z - b.z⟩

instance {α : Type} [Neg α] : Neg (Vec3 α) where
  neg a := ⟨-a.x, -a.y, -a.z⟩

/-- Left scalar multiplication, mirroring `impl Mul<Vec3> for f64`. -/
instance {α : Type} [Mul α] : SMul α (Vec3 α) where
  smul k v := ⟨k * v.x, k * v.y, k * v.z⟩

/-- Indexing by axis, mirroring `impl Index<Axis3> for Vec3`. -/
def Vec3.get {α : Type} (v : Vec3 α) : Axis3 → α
  | Axis3.X => v.x
  | Axis3.Y => v.y
  | Axis3.Z => v.z

@[simp]
theorem Vec3.add_mk {α : Type} [Add α] (ax ay az bx by1 bz : α) :
    (Vec3.mk ax ay az) + (Vec3.mk bx by1 bz) = Vec3.mk (ax + bx) (ay + by1) (az + bz) :=
  rfl

@[simp]
theorem Vec3.sub_mk {α : Type} [Sub α] (ax ay az bx by1 bz : α) :
    (Vec3.mk ax ay az) - (Vec3.mk bx by1 bz) = Vec3.mk (ax - bx) (ay - by1) (az - bz) :=
  rfl

@[simp]
theorem Vec3.neg_mk {α : Type} [Neg α] (ax ay az : α) :
    -(Vec3.mk ax ay az) = Vec3.mk (-ax) (-ay) (-az) :=
  rfl

@[simp]
theorem Vec3.smul_mk {α : Type} [Mul α] (k ax ay az : α) :
    k • (Vec3.mk ax ay az) = Vec3.mk (k * ax) (k * ay) (k * az) :=
  rfl

@[simp]
theorem Vec3.get_mk_X {α : Type} (ax ay az : α) :
    (Vec3.mk ax ay az).get Axis3.X = ax :=
  rfl

@[simp]
theorem Vec3.get_mk_Y {α : Type} (ax ay az : α) :
    (Vec3.mk ax ay az).get Axis3.Y = ay :=
  rfl

@[simp]
theorem Vec3.get_mk_Z {α : Type} (ax ay az : α) :
    (Vec3.mk ax ay az).get Axis3.Z = az :=
  rfl

/-- Euclidean norm squared (`Vec3::norm_squared`). -/
def Vec3.norm_squared {α : Type} [CommRing α] (v : Vec3 α) : α :=
  v.x ^ 2 + v.y ^ 2 + v.z ^ 2

/-- Dot product (`Vec3::dot`). -/
def Vec3.dot {α : Type} [CommRing α] (v w : Vec3 α) : α :=
  v.x * w.x + v.y * w.y + v.z * w.z

/-- Cross product (`Vec3::cross`). -/
def Vec3.cross {α : Type} [CommRing α] (v w : Vec3 α) : Vec3 α :=
  ⟨v.y * w.z - v.z * w.y, v.z * w.x - v.x * w.z, v.x * w.y - v.y * w.x⟩

/-- The zero vector (`Vec3::origin`). -/
def Vec3.origin {α : Type} [Zero α] : Vec3 α :=
  ⟨0, 0, 0⟩

/-- Negation helper used by the source (`Vec3::negate`, i.e. `-1.0 * self`). -/
def Vec3.negate {α : Type} [Ring α] (v : Vec3 α) : Vec3 α :=
  (-1 : α) • v

/-- Modelled from the spec: a ray is an origin plus a direction
(`src/ray.rs` is referenced by the sources but not included; §3 of the
spec gives origin, direction and point-at-parameter evaluation). -/
structure Ray (α : Type) where
  origin : Vec3 α
  direction : Vec3 α
deriving DecidableEq, Repr

/-- Modelled from the spec: point-at-parameter, `at(t) = origin + t*direction`. -/
def Ray.at {α : Type} [CommRing α] (r : Ray α) (t : α) : Vec3 α :=
  r.origin + t • r.direction

/-- Parametric interval, mirroring `Interval` in `src/interval.rs`.
The Rust field `end` is a Lean keyword, so it is renamed `stop`. -/
structure Interval (α : Type) where
  start : α
  stop : α
deriving DecidableEq, Repr

/-- Pure version of `Interval::intersect_mut`. -/
def Interval.intersect_mut {α : Type} [LinearOrder α] (i other : Interval α) : Interval α :=
  ⟨Max.max i.start other.start, Min.min i.stop other.stop⟩

/-- Mirror of `Interval::is_empty`: `start >= end`. -/
def Interval.is_empty {α : Type} [LinearOrder α] (i : Interval α) : Bool :=
  decide (i.start ≥ i.stop)

/-- Axis-aligned bounding box, mirroring `Bounds3` in `src/bounds.rs`. -/
structure Bounds3 (α : Type) where
  min : Vec3 α
  max : Vec3 α
deriving DecidableEq, Repr

/-- Mirror of `Bounds3::new`: componentwise min/max of two corners. -/
def Bounds3.new {α : Type} [LinearOrder α] (a b : Vec3 α) : Bounds3 α :=
  ⟨⟨Min.min a.x b.x, Min.min a.y b.y, Min.min a.z b.z⟩,
   ⟨Max.max a.x b.x, Max.max a.y b.y, Max.max a.z b.z⟩⟩

/-- Mirror of `Bounds3::point`: zero-volume box at a point. -/
def Bounds3.point {α : Type} (v : Vec3 α) : Bounds3 α :=
  ⟨v, v⟩

/-- Mirror of `Bounds3::union`: componentwise min of mins, max of maxes. -/
def Bounds3.union {α : Type} [LinearOrder α] (b other : Bounds3 α) : Bounds3 α :=
  ⟨⟨Min.min b.min.x other.min.x, Min.min b.min.y other.min.y, Min.min b.min.z other.min.z⟩,
   ⟨Max.max b.max.x other.max.x, Max.max b.max.y other.max.y, Max.max b.max.z other.max.z⟩⟩

/-- Mirror of `Bounds3::diagonal`. -/
def Bounds3.diagonal {α : Type} [LinearOrderedField α] (b : Bounds3 α) : Vec3 α :=
  b.max - b.min

/-- Mirror of `Bounds3::maximum_extent`: longest axis, ties broken X, then Y, then Z. -/
def Bounds3.maximum_extent {α : Type} [LinearOrderedField α] (b : Bounds3 α) : Axis3 :=
  let diagonal := b.diagonal
  if diagonal.x > diagonal.y ∧ diagonal.x > diagonal.z then Axis3.X
  else if diagonal.y > diagonal.z then Axis3.Y
  else Axis3.Z

/-- Mirror of `Bounds3::centroid`: `0.5 * min + 0.5 * max`. -/
def Bounds3.centroid {α : Type} [LinearOrderedField α] (b : Bounds3 α) : Vec3 α :=
  ((1 : α) / 2) • b.min + ((1 : α) / 2) • b.max

/-- The `for` loop of `Bounds3::hit_by`, one recursive step per axis.
The early `return false` of the source is the `false` branch. -/
def Bounds3.hitByGo {α : Type} [LinearOrderedField α]
    (b : Bounds3 α) (ray : Ray α) : List Axis3 → Interval α → Bool
  | [], t_interval => !t_interval.is_empty
  | axis :: rest, t_interval =>
    if ray.direction.get axis = 0 then
      if b.min.get axis ≤ ray.origin.get axis ∧ ray.origin.get axis ≤ b.max.get axis then
        b.hitByGo ray rest t_interval
      else
        false
    else
      let inverse_ray_direction := 1 / ray.direction.get axis
      let t_for_axis_min := (b.min.get axis - ray.origin.get axis) * inverse_ray_direction
      let t_for_axis_max := (b.max.get axis - ray.origin.get axis) * inverse_ray_direction
      b.hitByGo ray rest
        (t_interval.intersect_mut
          ⟨Min.min t_for_axis_min t_for_axis_max, Max.max t_for_axis_min t_for_axis_max⟩)

/-- The axis iteration order of `Bounds3::hit_by`. -/
def slab_axes : List Axis3 :=
  [Axis3.X, Axis3.Y, Axis3.Z]

/-- Mirror of `Bounds3::hit_by` (slab test). -/
def Bounds3.hit_by {α : Type} [LinearOrderedField α]
    (b : Bounds3 α) (ray : Ray α) (t_min t_max : α) : Bool :=
  b.hitByGo ray slab_axes ⟨t_min, t_max⟩

/-- Mirror of `Face` in `src/hit.rs`. -/
inductive Face where
  | Front
  | Back
deriving DecidableEq, Repr

/-- Mirror of `texture::Coord` (a 2-D texture coordinate). -/
structure Coord (α : Type) where
  u : α
  v : α
deriving DecidableEq, Repr

/-- Mirror of `Hit` in `src/hit.rs` (with the `texture_coord` field used
by `src/sphere.rs` and `src/material.rs`). The shared material reference
is modelled as an opaque identifier. -/
structure Hit (α : Type) where
  point : Vec3 α
  normal : Vec3 α
  t : α
  face : Face
  material : ℕ
  texture_coord : Coord α
deriving DecidableEq, Repr

/-- Mirror of the `IsObject` capability set of `src/object.rs`: a
primitive is anything with a ray intersection test and a bounding box. -/
structure Object (α : Type) where
  hit : Ray α → α → α → Option (Hit α)
  bounds : Bounds3 α

/-- The loop body state of the slice `HasHit` impl in `src/hit.rs`:
current best result and `closest_so_far`. -/
def hitSliceAux {α : Type} (ray : Ray α) (t_min : α) :
    List (Object α) → Option (Hit α) → α → Option (Hit α)
  | [], result, _ => result
  | object :: rest, result, closest_so_far =>
    match object.hit ray t_min closest_so_far with
    | some h => hitSliceAux ray t_min rest (some h) h.t
    | none => hitSliceAux ray t_min rest result closest_so_far

/-- Mirror of `impl HasHit for &[T]` in `src/hit.rs`: linear scan keeping
the closest hit, narrowing `t_max` to each new best `t`. -/
def hitSlice {α : Type} (objects : List (Object α)) (ray : Ray α) (t_min t_max : α) :
    Option (Hit α) :=
  hitSliceAux ray t_min objects none t_max

/-- Mirror of `BvhNode` in `src/bvh.rs`. -/
inductive BvhNode (α : Type) where
  | Branch (bounds : Bounds3 α) (left right : BvhNode α)
  | Leaf (bounds : Bounds3 α) (items : List (Object α))

/-- Mirror of `BvhNode::bounds`. -/
def BvhNode.bounds {α : Type} : BvhNode α → Bounds3 α
  | BvhNode.Branch bounds _ _ => bounds
  | BvhNode.Leaf bounds _ => bounds

/-- Mirror of `BvhNode::branch`: a branch whose box is the union of the
children's boxes. -/
def BvhNode.branch {α : Type} [LinearOrder α] (left right : BvhNode α) : BvhNode α :=
  BvhNode.Branch (left.bounds.union right.bounds) left right

/-- Mirror of `impl HasHit for BvhNode` in `src/bvh.rs`. -/
def BvhNode.hit {α : Type} [LinearOrderedField α] :
    BvhNode α → Ray α → α → α → Option (Hit α)
  | BvhNode.Branch bounds left right, ray, t_min, t_max =>
    if bounds.hit_by ray t_min t_max then
      match left.hit ray t_min t_max with
      | some left_hit =>
        match right.hit ray t_min left_hit.t with
        | some right_hit => some right_hit
        | none => some left_hit
      | none => right.hit ray t_min t_max
    else
      none
  | BvhNode.Leaf bounds items, ray, t_min, t_max =>
    if bounds.hit_by ray t_min t_max then
      hitSlice items ray t_min t_max
    else
      none

/-- The primitives stored in a subtree, in tree order. -/
def BvhNode.items {α : Type} : BvhNode α → List (Object α)
  | BvhNode.Branch _ left right => left.items ++ right.items
  | BvhNode.Leaf _ items => items

/-- All subtrees of a node, the node itself included. -/
def BvhNode.subtrees {α : Type} : BvhNode α → List (BvhNode α)
  | BvhNode.Branch bounds left right =>
    BvhNode.Branch bounds left right :: (left.subtrees ++ right.subtrees)
  | BvhNode.Leaf bounds items => [BvhNode.Leaf bounds items]

/-- Mirror of the local `ItemWithInfo` of `Bvh::from`: a primitive with
its precomputed box and centroid. The Rust value stores an index into
the full collection and the leaves clone `items[index]`; the embedding
stores the object itself, which is what that indirection denotes. -/
structure ItemWithInfo (α : Type) where
  bounds : Bounds3 α
  centroid : Vec3 α
  item : Object α

/-- The bounding box fold at the top of `build` (union of the items'
boxes, seeded with the first item's box). -/
def boundsFold {α : Type} [LinearOrder α]
    (first : ItemWithInfo α) (rest : List (ItemWithInfo α)) : Bounds3 α :=
  rest.foldl (fun bounds item_with_info => bounds.union item_with_info.bounds) first.bounds

/-- The centroid-box fold of `build` (union of the point boxes of the
items' centroids). -/
def centroidFold {α : Type} [LinearOrder α]
    (first : ItemWithInfo α) (rest : List (ItemWithInfo α)) : Bounds3 α :=
  rest.foldl (fun centroid_bounds item_with_info =>
    centroid_bounds.union (Bounds3.point item_with_info.centroid)) (Bounds3.point first.centroid)

/-- The partition predicate of `build`: centroid strictly below the
midpoint on the partition axis goes left. -/
def goesLeft {α : Type} [LinearOrderedField α]
    (partition_axis : Axis3) (midpoint : Vec3 α) (item_with_info : ItemWithInfo α) : Bool :=
  decide (item_with_info.centroid.get partition_axis < midpoint.get partition_axis)

/-- Mirror of the recursive `build` of `Bvh::from` in `src/bvh.rs`,
with an explicit fuel parameter standing for the Rust call stack.
`none` signals either fuel exhaustion or an `assert!` failure (empty
subset, or the partition assertion `left.len() < items.len()`); the
termination theorem shows `none` never arises from a nonempty subset
when the fuel is the subset size. `itemsLen` is the length of the full
collection `items`, used only by the partition assertion. -/
def build {α : Type} [LinearOrderedField α] (itemsLen : ℕ) :
    ℕ → List (ItemWithInfo α) → Option (BvhNode α)
  | _, [] => none
  | 0, _ :: _ => none
  | fuel + 1, first :: rest =>
    let bounds := boundsFold first rest
    if (first :: rest).length = 1 then
      some (BvhNode.Leaf bounds ((first :: rest).map ItemWithInfo.item))
    else
      let centroid_bounds := centroidFold first rest
      let partition_axis := centroid_bounds.maximum_extent
      if centroid_bounds.min.get partition_axis = centroid_bounds.max.get partition_axis then
        some (BvhNode.Leaf bounds ((first :: rest).map ItemWithInfo.item))
      else
        let midpoint := centroid_bounds.centroid
        let items_with_info_left := (first :: rest).filter (goesLeft partition_axis midpoint)
        let items_with_info_right :=
          (first :: rest).filter (fun i => !goesLeft partition_axis midpoint i)
        if items_with_info_left.length < itemsLen then
          match build itemsLen fuel items_with_info_left,
              build itemsLen fuel items_with_info_right with
          | some left, some right => some (BvhNode.branch left right)
          | _, _ => none
        else
          none

/-- Mirror of `Bvh` in `src/bvh.rs`. -/
inductive Bvh (α : Type) where
  | Empty
  | Node (node : BvhNode α)

/-- The `items_with_info` precomputation of `Bvh::from`. -/
def mkInfos {α : Type} [LinearOrderedField α] (items : List (Object α)) : List (ItemWithInfo α) :=
  items.map fun item => ⟨item.bounds, item.bounds.centroid, item⟩

/-- Mirror of `impl From<&[Object]> for Bvh`: empty collections give
`Bvh::Empty`, otherwise the recursive `build` runs on the full
collection (fuel: the collection size; the fallback `Bvh.Empty` on
`none` is unreachable by the termination theorem). -/
def Bvh.fromItems {α : Type} [LinearOrderedField α] (items : List (Object α)) : Bvh α :=
  match items with
  | [] => Bvh.Empty
  | _ :: _ =>
    match build items.length items.length (mkInfos items) with
    | some node => Bvh.Node node
    | none => Bvh.Empty

/-- Mirror of `impl HasHit for Bvh`. -/
def Bvh.hit {α : Type} [LinearOrderedField α] (b : Bvh α) (ray : Ray α) (t_min t_max : α) :
    Option (Hit α) :=
  match b with
  | Bvh.Empty => none
  | Bvh.Node node => node.hit ray t_min t_max

/-! ### C4: specification-side slab test -/

/-- Spec-side ordered slab-crossing interval for a non-parallel axis:
the two plane-crossing parameters, ordered. -/
def slabIntervalFor {α : Type} [LinearOrderedField α]
    (b : Bounds3 α) (ray : Ray α) (axis : Axis3) : Interval α :=
  let t_lo := (b.min.get axis - ray.origin.get axis) / ray.direction.get axis
  let t_hi := (b.max.get axis - ray.origin.get axis) / ray.direction.get axis
  ⟨Min.min t_lo t_hi, Max.max t_lo t_hi⟩

/-- Spec-side slab fold: the initial window intersected with the
ordered crossing intervals of the non-parallel axes, in axis order. -/
def slabFold {α : Type} [LinearOrderedField α]
    (b : Bounds3 α) (ray : Ray α) (axes : List Axis3) (iv : Interval α) : Interval α :=
  (axes.filter fun axis => !decide (ray.direction.get axis = 0)).foldl
    (fun t_interval axis => t_interval.intersect_mut (slabIntervalFor b ray axis)) iv

/-- Spec-side description of the slab test over a given list of axes:
every parallel axis must have the origin inside its slab (inclusive),
and the interval obtained from the initial window by intersecting the
ordered crossing intervals of all non-parallel axes must be non-empty
in the strict sense. -/
def hitBySpec {α : Type} [LinearOrderedField α]
    (b : Bounds3 α) (ray : Ray α) (axes : List Axis3) (iv : Interval α) : Prop :=
  (∀ axis ∈ axes, ray.direction.get axis = 0 →
    b.min.get axis ≤ ray.origin.get axis ∧ ray.origin.get axis ≤ b.max.get axis)
  ∧ (slabFold b ray axes iv).start < (slabFold b ray axes iv).stop

theorem hitByGo_cons_par_in {α : Type} [LinearOrderedField α]
    {b : Bounds3 α} {ray : Ray α} {axis : Axis3} {rest : List Axis3} {iv : Interval α}
    (hpar : ray.direction.get axis = 0)
    (hins : b.min.get axis ≤ ray.origin.get axis ∧ ray.origin.get axis ≤ b.max.get axis) :
    b.hitByGo ray (axis :: rest) iv = b.hitByGo ray rest iv := by
  rw [Bounds3.hitByGo]
  simp only [hpar, if_true, if_pos rfl]
  rw [if_pos hins]

theorem hitByGo_cons_par_out {α : Type} [LinearOrderedField α]
    {b : Bounds3 α} {ray : Ray α} {axis : Axis3} {rest : List Axis3} {iv : Interval α}
    (hpar : ray.direction.get axis = 0)
    (hins : ¬ (b.min.get axis ≤ ray.origin.get axis ∧ ray.origin.get axis ≤ b.max.get axis)) :
    b.hitByGo ray (axis :: rest) iv = false := by
  rw [Bounds3.hitByGo]
  simp only [hpar, if_true, if_pos rfl]
  rw [if_neg hins]

theorem hitByGo_cons_nonpar {α : Type} [LinearOrderedField α]
    {b : Bounds3 α} {ray : Ray α} {axis : Axis3} {rest : List Axis3} {iv : Interval α}
    (hpar : ¬ ray.direction.get axis = 0) :
    b.hitByGo ray (axis :: rest) iv =
      b.hitByGo ray rest (iv.intersect_mut (slabIntervalFor b ray axis)) := by
  rw [show b.hitByGo ray (axis :: rest) iv =
      b.hitByGo ray rest (iv.intersect_mut
        ⟨Min.min ((b.min.get axis - ray.origin.get axis) * (1 / ray.direction.get axis))
          ((b.max.get axis - ray.origin.get axis) * (1 / ray.direction.get axis)),
         Max.max ((b.min.get axis - ray.origin.get axis) * (1 / ray.direction.get axis))
          ((b.max.get axis - ray.origin.get axis) * (1 / ray.direction.get axis))⟩) by
    rw [Bounds3.hitByGo]
    simp only [hpar, if_false]]
  rw [show slabIntervalFor b ray axis =
      ⟨Min.min ((b.min.get axis - ray.origin.get axis) * (1 / ray.direction.get axis))
        ((b.max.get axis - ray.origin.get axis) * (1 / ray.direction.get axis)),
       Max.max ((b.min.get axis - ray.origin.get axis) * (1 / ray.direction.get axis))
        ((b.max.get axis - ray.origin.get axis) * (1 / ray.direction.get axis))⟩ by
    simp [slabIntervalFor, div_eq_mul_inv, one_div]]

theorem hitByGo_iff_spec {α : Type} [LinearOrderedField α]
    (b : Bounds3 α) (ray : Ray α) :
    ∀ (axes : List Axis3) (iv : Interval α),
      (b.hitByGo ray axes iv = true) ↔ hitBySpec b ray axes iv := by
  intro axes
  induction axes with
  | nil =>
    intro iv
    simp [Bounds3.hitByGo, hitBySpec, slabFold, Interval.is_empty, not_le]
  | cons axis rest ih =>
    intro iv
    by_cases hpar : ray.direction.get axis = 0
    · by_cases hins : b.min.get axis ≤ ray.origin.get axis ∧ ray.origin.get axis ≤ b.max.get axis
      · rw [hitByGo_cons_par_in hpar hins, ih iv]
        have hfil : List.filter (fun ax => !decide (ray.direction.get ax = 0)) (axis :: rest) =
            List.filter (fun ax => !decide (ray.direction.get ax = 0)) rest := by
          simp [List.filter_cons, hpar]
        unfold hitBySpec slabFold
        rw [hfil]
        constructor
        · rintro ⟨hp, hiv⟩
          refine ⟨?_, hiv⟩
          intro ax hax hd
          rcases List.mem_cons.mp hax with h | h
          · exact h ▸ hins
          · exact hp ax h hd
        · rintro ⟨hp, hiv⟩
          exact ⟨fun ax hax hd => hp ax (List.mem_cons_of_mem _ hax) hd, hiv⟩
      · rw [hitByGo_cons_par_out hpar hins]
        simp only [Bool.false_eq_true, false_iff, hitBySpec, not_and]
        intro hp
        exact absurd (hp axis (List.mem_cons_self _ _) hpar) hins
    · rw [hitByGo_cons_nonpar hpar, ih _]
      have hfil : List.filter (fun ax => !decide (ray.direction.get ax = 0)) (axis :: rest) =
          axis :: List.filter (fun ax => !decide (ray.direction.get ax = 0)) rest := by
        simp [List.filter_cons, hpar]
      unfold hitBySpec slabFold
      rw [hfil, List.foldl_cons]
      constructor
      · rintro ⟨hp, hiv⟩
        refine ⟨?_, hiv⟩
        intro ax hax hd
        rcases List.mem_cons.mp hax with h | h
        · exact absurd (h ▸ hd) hpar
        · exact hp ax h hd
      · rintro ⟨hp, hiv⟩
        exact ⟨fun ax hax hd => hp ax (List.mem_cons_of_mem _ hax) hd, hiv⟩

/-- C4: `Bounds3::hit_by` returns true iff the interval obtained from
the window `[t_min, t_max]` by intersecting each non-parallel axis's
ordered slab-crossing interval is strictly non-empty, where every axis
parallel to the ray must have the ray origin inside that axis's
`[min, max]` range (inclusive), otherwise the test reports false. -/
theorem hit_by_iff_slab_spec {α : Type} [LinearOrderedField α]
    (b : Bounds3 α) (ray : Ray α) (t_min t_max : α) :
    (b.hit_by ray t_min t_max = true) ↔ hitBySpec b ray slab_axes ⟨t_min, t_max⟩ :=
  hitByGo_iff_spec b ray slab_axes ⟨t_min, t_max⟩

/-! ### C10: empty scene -/

/-- C10: building a BVH from the empty collection yields the dedicated
`Bvh::Empty` variant, and `hit` on `Bvh::Empty` returns `None` for every
ray and parameter window, so a zero-primitive scene never reports an
intersection. -/
theorem bvh_empty_never_hits :
    Bvh.fromItems ([] : List (Object ℚ)) = Bvh.Empty ∧
    ∀ (ray : Ray ℚ) (t_min t_max : ℚ), Bvh.hit Bvh.Empty ray t_min t_max = none := by
  exact ⟨rfl, fun _ _ _ => rfl⟩

/-! ### C2, C3: BVH construction -/

theorem Bounds3.union_min_get {α : Type} [LinearOrder α] (b c : Bounds3 α) (axis : Axis3) :
    (b.union c).min.get axis = Min.min (b.min.get axis) (c.min.get axis) := by
  cases axis <;> rfl

theorem Bounds3.union_max_get {α : Type} [LinearOrder α] (b c : Bounds3 α) (axis : Axis3) :
    (b.union c).max.get axis = Max.max (b.max.get axis) (c.max.get axis) := by
  cases axis <;> rfl

theorem Bounds3.centroid_get {α : Type} [LinearOrderedField α] (b : Bounds3 α) (axis : Axis3) :
    b.centroid.get axis = (1 : α) / 2 * b.min.get axis + (1 : α) / 2 * b.max.get axis := by
  cases axis <;> rfl

/-- The centroid-box fold with an explicit accumulator. -/
def cfoldAux {α : Type} [LinearOrder α]
    (acc : Bounds3 α) (l : List (ItemWithInfo α)) : Bounds3 α :=
  l.foldl (fun centroid_bounds item_with_info =>
    centroid_bounds.union (Bounds3.point item_with_info.centroid)) acc

theorem centroidFold_eq_cfoldAux {α : Type} [LinearOrder α]
    (first : ItemWithInfo α) (rest : List (ItemWithInfo α)) :
    centroidFold first rest = cfoldAux (Bounds3.point first.centroid) rest :=
  rfl

theorem cfoldAux_min_le {α : Type} [LinearOrder α] (axis : Axis3) :
    ∀ (l : List (ItemWithInfo α)) (acc : Bounds3 α),
      (cfoldAux acc l).min.get axis ≤ acc.min.get axis ∧
      ∀ i ∈ l, (cfoldAux acc l).min.get axis ≤ i.centroid.get axis := by
  intro l
  induction l with
  | nil => intro acc; exact ⟨le_refl _, by simp⟩
  | cons i l ih =>
    intro acc
    have hstep : cfoldAux acc (i :: l) = cfoldAux (acc.union (Bounds3.point i.centroid)) l := rfl
    obtain ⟨h1, h2⟩ := ih (acc.union (Bounds3.point i.centroid))
    have hmin : (acc.union (Bounds3.point i.centroid)).min.get axis =
        Min.min (acc.min.get axis) (i.centroid.get axis) :=
      Bounds3.union_min_get acc _ axis
    refine ⟨?_, ?_⟩
    · rw [hstep]
      exact le_trans h1 (le_trans (le_of_eq hmin) (min_le_left _ _))
    · intro j hj
      rcases List.mem_cons.mp hj with h | h
      · subst h
        rw [hstep]
        exact le_trans h1 (le_trans (le_of_eq hmin) (min_le_right _ _))
      · rw [hstep]
        exact h2 j h

theorem cfoldAux_le_max {α : Type} [LinearOrder α] (axis : Axis3) :
    ∀ (l : List (ItemWithInfo α)) (acc : Bounds3 α),
      acc.max.get axis ≤ (cfoldAux acc l).max.get axis ∧
      ∀ i ∈ l, i.centroid.get axis ≤ (cfoldAux acc l).max.get axis := by
  intro l
  induction l with
  | nil => intro acc; exact ⟨le_refl _, by simp⟩
  | cons i l ih =>
    intro acc
    have hstep : cfoldAux acc (i :: l) = cfoldAux (acc.union (Bounds3.point i.centroid)) l := rfl
    obtain ⟨h1, h2⟩ := ih (acc.union (Bounds3.point i.centroid))
    have hmax : (acc.union (Bounds3.point i.centroid)).max.get axis =
        Max.max (acc.max.get axis) (i.centroid.get axis) :=
      Bounds3.union_max_get acc _ axis
    refine ⟨?_, ?_⟩
    · rw [hstep]
      exact le_trans (le_trans (le_max_left _ _) (le_of_eq hmax.symm)) h1
    · intro j hj
      rcases List.mem_cons.mp hj with h | h
      · subst h
        rw [hstep]
        exact le_trans (le_trans (le_max_right _ _) (le_of_eq hmax.symm)) h1
      · rw [hstep]
        exact h2 j h

theorem cfoldAux_min_attained {α : Type} [LinearOrder α] (axis : Axis3) :
    ∀ (l : List (ItemWithInfo α)) (acc : Bounds3 α),
      (cfoldAux acc l).min.get axis = acc.min.get axis ∨
      ∃ i ∈ l, (cfoldAux acc l).min.get axis = i.centroid.get axis := by
  intro l
  induction l with
  | nil => intro acc; exact Or.inl rfl
  | cons i l ih =>
    intro acc
    have hstep : cfoldAux acc (i :: l) = cfoldAux (acc.union (Bounds3.point i.centroid)) l := rfl
    have hmin : (acc.union (Bounds3.point i.centroid)).min.get axis =
        Min.min (acc.min.get axis) (i.centroid.get axis) :=
      Bounds3.union_min_get acc _ axis
    rcases ih (acc.union (Bounds3.point i.centroid)) with h | ⟨j, hj, hjeq⟩
    · rcases min_choice (acc.min.get axis) (i.centroid.get axis) with hc | hc
      · exact Or.inl (by rw [hstep, h, hmin, hc])
      · exact Or.inr ⟨i, List.mem_cons_self _ _, by rw [hstep, h, hmin, hc]⟩
    · exact Or.inr ⟨j, List.mem_cons_of_mem _ hj, by rw [hstep, hjeq]⟩

theorem cfoldAux_max_attained {α : Type} [LinearOrder α] (axis : Axis3) :
    ∀ (l : List (ItemWithInfo α)) (acc : Bounds3 α),
      (cfoldAux acc l).max.get axis = acc.max.get axis ∨
      ∃ i ∈ l, (cfoldAux acc l).max.get axis = i.centroid.get axis := by
  intro l
  induction l with
  | nil => intro acc; exact Or.inl rfl
  | cons i l ih =>
    intro acc
    have hstep : cfoldAux acc (i :: l) = cfoldAux (acc.union (Bounds3.point i.centroid)) l := rfl
    have hmax : (acc.union (Bounds3.point i.centroid)).max.get axis =
        Max.max (acc.max.get axis) (i.centroid.get axis) :=
      Bounds3.union_max_get acc _ axis
    rcases ih (acc.union (Bounds3.point i.centroid)) with h | ⟨j, hj, hjeq⟩
    · rcases max_choice (acc.max.get axis) (i.centroid.get axis) with hc | hc
      · exact Or.inl (by rw [hstep, h, hmax, hc])
      · exact Or.inr ⟨i, List.mem_cons_self _ _, by rw [hstep, h, hmax, hc]⟩
    · exact Or.inr ⟨j, List.mem_cons_of_mem _ hj, by rw [hstep, hjeq]⟩

theorem centroidFold_min_le {α : Type} [LinearOrder α]
    (first : ItemWithInfo α) (rest : List (ItemWithInfo α)) (axis : Axis3) :
    ∀ i ∈ first :: rest,
      (centroidFold first rest).min.get axis ≤ i.centroid.get axis := by
  intro i hi
  rw [centroidFold_eq_cfoldAux]
  obtain ⟨h1, h2⟩ := cfoldAux_min_le axis rest (Bounds3.point first.centroid)
  rcases List.mem_cons.mp hi with h | h
  · subst h
    exact h1
  · exact h2 i h

theorem centroidFold_le_max {α : Type} [LinearOrder α]
    (first : ItemWithInfo α) (rest : List (ItemWithInfo α)) (axis : Axis3) :
    ∀ i ∈ first :: rest,
      i.centroid.get axis ≤ (centroidFold first rest).max.get axis := by
  intro i hi
  rw [centroidFold_eq_cfoldAux]
  obtain ⟨h1, h2⟩ := cfoldAux_le_max axis rest (Bounds3.point first.centroid)
  rcases List.mem_cons.mp hi with h | h
  · subst h
    exact h1
  · exact h2 i h

theorem centroidFold_min_attained {α : Type} [LinearOrder α]
    (first : ItemWithInfo α) (rest : List (ItemWithInfo α)) (axis : Axis3) :
    ∃ i ∈ first :: rest,
      i.centroid.get axis = (centroidFold first rest).min.get axis := by
  rw [centroidFold_eq_cfoldAux]
  rcases cfoldAux_min_attained axis rest (Bounds3.point first.centroid) with h | ⟨j, hj, hjeq⟩
  · exact ⟨first, List.mem_cons_self _ _, h.symm⟩
  · exact ⟨j, List.mem_cons_of_mem _ hj, hjeq.symm⟩

theorem centroidFold_max_attained {α : Type} [LinearOrder α]
    (first : ItemWithInfo α) (rest : List (ItemWithInfo α)) (axis : Axis3) :
    ∃ i ∈ first :: rest,
      i.centroid.get axis = (centroidFold first rest).max.get axis := by
  rw [centroidFold_eq_cfoldAux]
  rcases cfoldAux_max_attained axis rest (Bounds3.point first.centroid) with h | ⟨j, hj, hjeq⟩
  · exact ⟨first, List.mem_cons_self _ _, h.symm⟩
  · exact ⟨j, List.mem_cons_of_mem _ hj, hjeq.symm⟩

/-- Core partition fact for `build`: when the centroid box is not
degenerate along the partition axis, some item's centroid attains the
axis minimum (and goes strictly left of the midpoint) and some item's
centroid attains the axis maximum (and does not go left). -/
theorem split_members {α : Type} [LinearOrderedField α]
    (first : ItemWithInfo α) (rest : List (ItemWithInfo α))
    (hneq : (centroidFold first rest).min.get (centroidFold first rest).maximum_extent ≠
      (centroidFold first rest).max.get (centroidFold first rest).maximum_extent) :
    (∃ i ∈ first :: rest,
      goesLeft (centroidFold first rest).maximum_extent (centroidFold first rest).centroid i = true) ∧
    (∃ i ∈ first :: rest,
      goesLeft (centroidFold first rest).maximum_extent (centroidFold first rest).centroid i = false) := by
  have hle : (centroidFold first rest).min.get (centroidFold first rest).maximum_extent ≤
      (centroidFold first rest).max.get (centroidFold first rest).maximum_extent :=
    le_trans (centroidFold_min_le first rest _ first (List.mem_cons_self _ _))
      (centroidFold_le_max first rest _ first (List.mem_cons_self _ _))
  have hlt : (centroidFold first rest).min.get (centroidFold first rest).maximum_extent <
      (centroidFold first rest).max.get (centroidFold first rest).maximum_extent :=
    lt_of_le_of_ne hle hneq
  have hmid := Bounds3.centroid_get (centroidFold first rest) (centroidFold first rest).maximum_extent
  constructor
  · obtain ⟨i, hi, hieq⟩ := centroidFold_min_attained first rest (centroidFold first rest).maximum_extent
    refine ⟨i, hi, ?_⟩
    simp only [goesLeft, decide_eq_true_eq]
    rw [hieq, hmid]
    linarith
  · obtain ⟨i, hi, hieq⟩ := centroidFold_max_attained first rest (centroidFold first rest).maximum_extent
    refine ⟨i, hi, ?_⟩
    simp only [goesLeft, decide_eq_false_iff_not, not_lt]
    rw [hieq, hmid]
    linarith

/-- C3: in the non-degenerate branch of `build`, the midpoint partition
is non-trivial: both sides are non-empty, hence each side is strictly
smaller than the subset being split, and the construction assertion
`left.len() < items.len()` holds (the full collection is at least as
large as the subset), so the fatal assertion never fires. -/
theorem bvh_split_nontrivial {α : Type} [LinearOrderedField α]
    (first : ItemWithInfo α) (rest : List (ItemWithInfo α))
    (hneq : (centroidFold first rest).min.get (centroidFold first rest).maximum_extent ≠
      (centroidFold first rest).max.get (centroidFold first rest).maximum_extent) :
    0 < ((first :: rest).filter
        (goesLeft (centroidFold first rest).maximum_extent (centroidFold first rest).centroid)).length ∧
    0 < ((first :: rest).filter
        (fun i => !goesLeft (centroidFold first rest).maximum_extent (centroidFold first rest).centroid i)).length ∧
    ((first :: rest).filter
        (goesLeft (centroidFold first rest).maximum_extent (centroidFold first rest).centroid)).length <
      (first :: rest).length ∧
    ((first :: rest).filter
        (fun i => !goesLeft (centroidFold first rest).maximum_extent (centroidFold first rest).centroid i)).length <
      (first :: rest).length ∧
    ∀ itemsLen : ℕ, (first :: rest).length ≤ itemsLen →
      ((first :: rest).filter
        (goesLeft (centroidFold first rest).maximum_extent (centroidFold first rest).centroid)).length <
        itemsLen := by
  obtain ⟨⟨il, hil, hilt⟩, ⟨ir, hir, hirf⟩⟩ := split_members first rest hneq
  have hleft_pos : 0 < ((first :: rest).filter
      (goesLeft (centroidFold first rest).maximum_extent (centroidFold first rest).centroid)).length :=
    List.length_pos_of_mem (List.mem_filter.mpr ⟨hil, hilt⟩)
  have hright_pos : 0 < ((first :: rest).filter
      (fun i => !goesLeft (centroidFold first rest).maximum_extent (centroidFold first rest).centroid i)).length :=
    List.length_pos_of_mem (List.mem_filter.mpr ⟨hir, by rw [hirf]; rfl⟩)
  have hleft_lt : ((first :: rest).filter
      (goesLeft (centroidFold first rest).maximum_extent (centroidFold first rest).centroid)).length <
      (first :: rest).length :=
    List.length_filter_lt_length_iff_exists.mpr ⟨ir, hir, by rw [hirf]; simp⟩
  have hright_lt : ((first :: rest).filter
      (fun i => !goesLeft (centroidFold first rest).maximum_extent (centroidFold first rest).centroid i)).length <
      (first :: rest).length :=
    List.length_filter_lt_length_iff_exists.mpr ⟨il, hil, by rw [hilt]; simp⟩
  exact ⟨hleft_pos, hright_pos, hleft_lt, hright_lt,
    fun itemsLen hlen => lt_of_lt_of_le hleft_lt hlen⟩

/-- Sufficient fuel makes `build` succeed: with fuel at least the subset
size, a nonempty subset never exhausts fuel and never trips an
assertion, provided the full collection is at least as large as the
subset. -/
theorem build_isSome {α : Type} [LinearOrderedField α] (itemsLen : ℕ) :
    ∀ (fuel : ℕ) (iwi : List (ItemWithInfo α)), iwi ≠ [] →
      iwi.length ≤ fuel → iwi.length ≤ itemsLen →
      (build itemsLen fuel iwi).isSome := by
  intro fuel
  induction fuel with
  | zero =>
    intro iwi hne hlen _
    exact absurd (Nat.le_zero.mp hlen) (by simpa [List.length_eq_zero] using hne)
  | succ fuel ih =>
    intro iwi hne hlen hfull
    match iwi with
    | [] => exact absurd rfl hne
    | first :: rest =>
      rw [build]
      by_cases h1 : (first :: rest).length = 1
      · simp only [h1, if_pos rfl]
        rfl
      · rw [if_neg h1]
        by_cases hdeg : (centroidFold first rest).min.get (centroidFold first rest).maximum_extent =
            (centroidFold first rest).max.get (centroidFold first rest).maximum_extent
        · rw [if_pos hdeg]
          rfl
        · rw [if_neg hdeg]
          obtain ⟨hlp, hrp, hll, hrl, hassert⟩ := bvh_split_nontrivial first rest hdeg
          rw [if_pos (hassert itemsLen hfull)]
          have hlsome := ih ((first :: rest).filter
              (goesLeft (centroidFold first rest).maximum_extent (centroidFold first rest).centroid))
            (by
              intro hnil
              rw [hnil] at hlp
              exact absurd hlp (by simp))
            (by omega)
            (by omega)
          have hrsome := ih ((first :: rest).filter
              (fun i => !goesLeft (centroidFold first rest).maximum_extent (centroidFold first rest).centroid i))
            (by
              intro hnil
              rw [hnil] at hrp
              exact absurd hrp (by simp))
            (by omega)
            (by omega)
          obtain ⟨left, hleft⟩ := Option.isSome_iff_exists.mp hlsome
          obtain ⟨right, hright⟩ := Option.isSome_iff_exists.mp hrsome
          rw [hleft, hright]
          rfl

/-- C2: BVH construction terminates on every nonempty collection: with
fuel equal to the collection size (standing for the recursion depth
budget, since every recursive call strictly shrinks the subset except
the degenerate-leaf escape, which does not recurse), `build` produces a
node, and `Bvh::from` produces `Bvh::Node` of that tree. -/
theorem bvh_build_terminates {α : Type} [LinearOrderedField α]
    (items : List (Object α)) (hne : items ≠ []) :
    (build items.length items.length (mkInfos items)).isSome ∧
    ∃ node, Bvh.fromItems items = Bvh.Node node := by
  have hlen : (mkInfos items).length = items.length := by
    simp [mkInfos]
  have hsome : (build items.length items.length (mkInfos items)).isSome :=
    build_isSome items.length items.length (mkInfos items)
      (by simpa [mkInfos, List.map_eq_nil_iff] using hne) (le_of_eq hlen) (le_of_eq hlen)
  refine ⟨hsome, ?_⟩
  obtain ⟨node, hnode⟩ := Option.isSome_iff_exists.mp hsome
  refine ⟨node, ?_⟩
  match items, hne with
  | a :: l, _ =>
    simp only [Bvh.fromItems]
    rw [hnode]

/-- Witness for C2 at a concrete two-sphere-like scene over `ℚ`. -/
def oNoneQ : Object ℚ :=
  ⟨fun _ _ _ => none, Bounds3.point Vec3.origin⟩

/-- A second concrete primitive with a different bounding box. -/
def oNoneQ2 : Object ℚ :=
  ⟨fun _ _ _ => none, Bounds3.point ⟨1, 0, 0⟩⟩

theorem bvh_build_terminates_witness :
    ([oNoneQ, oNoneQ2] ≠ ([] : List (Object ℚ))) ∧
    ((build ([oNoneQ, oNoneQ2] : List (Object ℚ)).length ([oNoneQ, oNoneQ2] : List (Object ℚ)).length (mkInfos [oNoneQ, oNoneQ2])).isSome ∧
      ∃ node, Bvh.fromItems [oNoneQ, oNoneQ2] = Bvh.Node node) :=
  ⟨by simp, bvh_build_terminates [oNoneQ, oNoneQ2] (by simp)⟩

/-- Concrete item-with-info values for the C3 witness. -/
def infoQ0 : ItemWithInfo ℚ :=
  ⟨Bounds3.point ⟨0, 0, 0⟩, ⟨0, 0, 0⟩, oNoneQ⟩

/-- Second concrete item-with-info, centroid shifted along X. -/
def infoQ1 : ItemWithInfo ℚ :=
  ⟨Bounds3.point ⟨1, 0, 0⟩, ⟨1, 0, 0⟩, oNoneQ2⟩

theorem centroidFold_infoQ_eq : centroidFold infoQ0 [infoQ1] =
    ⟨⟨0, 0, 0⟩, ⟨1, 0, 0⟩⟩ := by
  show (Bounds3.point infoQ0.centroid).union (Bounds3.point infoQ1.centroid) = _
  norm_num [infoQ0, infoQ1, Bounds3.point, Bounds3.union]

theorem centroidFold_infoQ_nondegenerate :
    (centroidFold infoQ0 [infoQ1]).min.get (centroidFold infoQ0 [infoQ1]).maximum_extent ≠
      (centroidFold infoQ0 [infoQ1]).max.get (centroidFold infoQ0 [infoQ1]).maximum_extent := by
  rw [centroidFold_infoQ_eq]
  have hext : (Bounds3.mk (Vec3.mk (0:ℚ) 0 0) (Vec3.mk 1 0 0)).maximum_extent = Axis3.X := by
    norm_num [Bounds3.maximum_extent, Bounds3.diagonal]
  rw [hext]
  norm_num

theorem bvh_split_nontrivial_witness :
    ((centroidFold infoQ0 [infoQ1]).min.get (centroidFold infoQ0 [infoQ1]).maximum_extent ≠
      (centroidFold infoQ0 [infoQ1]).max.get (centroidFold infoQ0 [infoQ1]).maximum_extent) ∧
    (0 < ((infoQ0 :: [infoQ1]).filter
        (goesLeft (centroidFold infoQ0 [infoQ1]).maximum_extent (centroidFold infoQ0 [infoQ1]).centroid)).length ∧
    0 < ((infoQ0 :: [infoQ1]).filter
        (fun i => !goesLeft (centroidFold infoQ0 [infoQ1]).maximum_extent (centroidFold infoQ0 [infoQ1]).centroid i)).length ∧
    ((infoQ0 :: [infoQ1]).filter
        (goesLeft (centroidFold infoQ0 [infoQ1]).maximum_extent (centroidFold infoQ0 [infoQ1]).centroid)).length <
      (infoQ0 :: [infoQ1]).length ∧
    ((infoQ0 :: [infoQ1]).filter
        (fun i => !goesLeft (centroidFold infoQ0 [infoQ1]).maximum_extent (centroidFold infoQ0 [infoQ1]).centroid i)).length <
      (infoQ0 :: [infoQ1]).length ∧
    ∀ itemsLen : ℕ, (infoQ0 :: [infoQ1]).length ≤ itemsLen →
      ((infoQ0 :: [infoQ1]).filter
        (goesLeft (centroidFold infoQ0 [infoQ1]).maximum_extent (centroidFold infoQ0 [infoQ1]).centroid)).length <
        itemsLen) :=
  ⟨centroidFold_infoQ_nondegenerate, bvh_split_nontrivial infoQ0 [infoQ1] centroidFold_infoQ_nondegenerate⟩

/-! ### C5: dispatcher reassembly -/

/-- Insertion step of the dispatcher's final sort, descending by row
index (the comparator `|a, b| b.0.cmp(&a.0)` of `data.sort_by` in
`src/main.rs`). -/
def insertRowDesc {γ : Type} (p : ℕ × List γ) : List (ℕ × List γ) → List (ℕ × List γ)
  | [] => [p]
  | q :: rest => if q.1 ≤ p.1 then p :: q :: rest else q :: insertRowDesc p rest

/-- The dispatcher's `data.sort_by(|a, b| b.0.cmp(&a.0))`, embedded as
an insertion sort: any comparison sort agrees with it on lists whose
row indices are pairwise distinct, which the dispatcher guarantees. -/
def sortRowsDesc {γ : Type} : List (ℕ × List γ) → List (ℕ × List γ)
  | [] => []
  | p :: rest => insertRowDesc p (sortRowsDesc rest)

/-- The dispatcher's final reassembly (`src/main.rs`): sort the
collected `(row_index, row_of_colors)` pairs by descending row index,
then concatenate the rows. -/
def assembleRows {γ : Type} (data : List (ℕ × List γ)) : List γ :=
  ((sortRowsDesc data).map Prod.snd).flatten

theorem insertRowDesc_perm {γ : Type} (p : ℕ × List γ) :
    ∀ l : List (ℕ × List γ), List.Perm (insertRowDesc p l) (p :: l) := by
  intro l
  induction l with
  | nil => exact List.Perm.refl _
  | cons q rest ih =>
    rw [insertRowDesc]
    by_cases h : q.1 ≤ p.1
    · rw [if_pos h]
    · rw [if_neg h]
      exact List.Perm.trans (List.Perm.cons q ih) (List.Perm.swap p q rest)

theorem sortRowsDesc_perm {γ : Type} :
    ∀ l : List (ℕ × List γ), List.Perm (sortRowsDesc l) l := by
  intro l
  induction l with
  | nil => exact List.Perm.refl _
  | cons p rest ih =>
    exact List.Perm.trans (insertRowDesc_perm p (sortRowsDesc rest)) (List.Perm.cons p ih)

theorem mem_insertRowDesc {γ : Type} {x p : ℕ × List γ} {l : List (ℕ × List γ)}
    (hx : x ∈ insertRowDesc p l) : x = p ∨ x ∈ l :=
  List.mem_cons.mp ((insertRowDesc_perm p l).mem_iff.mp hx)

theorem insertRowDesc_sorted {γ : Type} (p : ℕ × List γ) :
    ∀ l : List (ℕ × List γ),
      List.Pairwise (fun a b : ℕ × List γ => b.1 ≤ a.1) l →
      List.Pairwise (fun a b : ℕ × List γ => b.1 ≤ a.1) (insertRowDesc p l) := by
  intro l
  induction l with
  | nil =>
    intro _
    exact List.pairwise_singleton _ _
  | cons q rest ih =>
    intro hs
    rw [List.pairwise_cons] at hs
    obtain ⟨hq, hrest⟩ := hs
    rw [insertRowDesc]
    by_cases h : q.1 ≤ p.1
    · rw [if_pos h]
      rw [List.pairwise_cons]
      refine ⟨?_, List.pairwise_cons.mpr ⟨hq, hrest⟩⟩
      intro b hb
      rcases List.mem_cons.mp hb with hbq | hbr
      · exact hbq ▸ h
      · exact le_trans (hq b hbr) h
    · rw [if_neg h]
      rw [List.pairwise_cons]
      refine ⟨?_, ih hrest⟩
      intro b hb
      rcases mem_insertRowDesc hb with hbp | hbr
      · exact hbp ▸ le_of_lt (lt_of_not_le h)
      · exact hq b hbr

theorem sortRowsDesc_sorted {γ : Type} :
    ∀ l : List (ℕ × List γ),
      List.Pairwise (fun a b : ℕ × List γ => b.1 ≤ a.1) (sortRowsDesc l) := by
  intro l
  induction l with
  | nil => exact List.Pairwise.nil
  | cons p rest ih => exact insertRowDesc_sorted p (sortRowsDesc rest) ih

theorem mem_row_map_shape {γ : Type} {image_height : ℕ} {rows : ℕ → List γ}
    {x : ℕ × List γ}
    (hx : x ∈ (List.range image_height).map (fun y => (y, rows y))) :
    x = (x.1, rows x.1) := by
  obtain ⟨y, _, hy⟩ := List.mem_map.mp hx
  rw [← hy]

/-- C5: the dispatcher's reassembly is deterministic and
scheduling-independent. Whatever the arrival order of the collected
`(row_index, row)` pairs (any permutation of one pair per row index
below `image_height`), sorting by the dispatcher's comparator and
concatenating yields rows in descending row-index order, i.e. top row
first under the camera's bottom-up row convention: row
`image_height - 1` first, row `0` last. The worker count never enters
the result. -/
theorem dispatcher_reassembly_deterministic {γ : Type} (image_height : ℕ)
    (rows : ℕ → List γ) (data : List (ℕ × List γ))
    (hperm : List.Perm data ((List.range image_height).map (fun y => (y, rows y)))) :
    assembleRows data = ((List.range image_height).reverse.map rows).flatten := by
  have hcanon : ((List.range image_height).reverse.map (fun y => (y, rows y))).Perm
      ((List.range image_height).map (fun y => (y, rows y))) := by
    exact (List.reverse_perm _).map _
  have hprm : (sortRowsDesc data).Perm
      ((List.range image_height).reverse.map (fun y => (y, rows y))) :=
    ((sortRowsDesc_perm data).trans hperm).trans hcanon.symm
  have hcanon_sorted : List.Pairwise (fun a b : ℕ × List γ => b.1 ≤ a.1)
      ((List.range image_height).reverse.map (fun y => (y, rows y))) := by
    rw [List.pairwise_map, List.pairwise_reverse]
    exact (List.pairwise_lt_range image_height).imp le_of_lt
  have heq : sortRowsDesc data = (List.range image_height).reverse.map (fun y => (y, rows y)) := by
    refine List.Perm.eq_of_sorted ?_ (sortRowsDesc_sorted data) hcanon_sorted hprm
    intro a b ha hb hab hba
    have hamem : a ∈ (List.range image_height).map (fun y => (y, rows y)) :=
      ((sortRowsDesc_perm data).trans hperm).subset ha
    have hbmem : b ∈ (List.range image_height).map (fun y => (y, rows y)) :=
      hcanon.subset hb
    have hkey : a.1 = b.1 := le_antisymm hba hab
    rw [mem_row_map_shape hamem, mem_row_map_shape hbmem, hkey]
  rw [assembleRows, heq, List.map_map]
  rfl

theorem dispatcher_reassembly_deterministic_witness :
    (List.Perm [(1, [11]), (0, [10])]
      ((List.range 2).map (fun y => (y, [10 + y])))) ∧
    assembleRows [(1, [11]), (0, [10])] = ((List.range 2).reverse.map (fun y => [10 + y])).flatten :=
  ⟨by decide,
    dispatcher_reassembly_deterministic 2 (fun y => [10 + y]) [(1, [11]), (0, [10])] (by decide)⟩

/-! ### Sphere intersection (src/sphere.rs), over the reals -/

/-- Mirror of `Sphere` in `src/sphere.rs`; the shared material
reference is modelled as an opaque identifier. -/
structure Sphere where
  center : Vec3 ℝ
  radius : ℝ
  material : ℕ

/-- Mirror of `impl HasBounds for Sphere`. -/
noncomputable def Sphere.bounds (s : Sphere) : Bounds3 ℝ :=
  Bounds3.new (s.center - ⟨s.radius, s.radius, s.radius⟩)
    (s.center + ⟨s.radius, s.radius, s.radius⟩)

/-- Rust `f64::atan2`, idealized over the reals through the complex
argument: `atan2 y x = arg (x + y*i) ∈ (-π, π]`, with `atan2 0 0 = 0`
(exact reals carry no signed zero). -/
noncomputable def atan2 (y x : ℝ) : ℝ :=
  Complex.arg ⟨x, y⟩

/-- The local `half_b` of `Sphere::hit`. -/
noncomputable def Sphere.half_b (s : Sphere) (ray : Ray ℝ) : ℝ :=
  ray.direction.dot (ray.origin - s.center)

/-- The local `c` of `Sphere::hit`. -/
noncomputable def Sphere.cval (s : Sphere) (ray : Ray ℝ) : ℝ :=
  (ray.origin - s.center).norm_squared - s.radius ^ 2

/-- The local `discriminant` of `Sphere::hit` (`a` is
`ray.direction.norm_squared()`). -/
noncomputable def Sphere.discriminant (s : Sphere) (ray : Ray ℝ) : ℝ :=
  s.half_b ray * s.half_b ray - ray.direction.norm_squared * s.cval ray

/-- The first candidate root of `Sphere::hit`: `(-half_b - sqrt(disc)) / a`. -/
noncomputable def Sphere.root1 (s : Sphere) (ray : Ray ℝ) : ℝ :=
  (-s.half_b ray - Real.sqrt (s.discriminant ray)) / ray.direction.norm_squared

/-- The fallback root of `Sphere::hit`: `(-half_b + sqrt(disc)) / a`. -/
noncomputable def Sphere.root2 (s : Sphere) (ray : Ray ℝ) : ℝ :=
  (-s.half_b ray + Real.sqrt (s.discriminant ray)) / ray.direction.norm_squared

/-- The hit record constructed by `Sphere::hit` once a root `t` is
selected: point, outward normal scaled by `1/radius`, normal
orientation against the ray with face tag, and texture coordinates from
the post-orientation normal's spherical angles. -/
noncomputable def Sphere.mkHit (s : Sphere) (ray : Ray ℝ) (t : ℝ) : Hit ℝ :=
  let point := ray.at t
  let outward_normal := ((1 : ℝ) / s.radius) • (point - s.center)
  let pair := if ray.direction.dot outward_normal < 0 then
      (outward_normal, Face.Front)
    else
      (-outward_normal, Face.Back)
  let normal := pair.1
  let phi := atan2 (-normal.z) normal.x + Real.pi
  let theta := Real.arccos (-normal.y)
  { point := point, normal := normal, t := t, face := pair.2, material := s.material,
    texture_coord := ⟨phi / (2 * Real.pi), theta / Real.pi⟩ }

/-- Mirror of `impl HasHit for Sphere` in `src/sphere.rs`: reject a
negative discriminant, try the smaller root, fall back to the larger
root, reject if both fall outside the closed window. -/
noncomputable def Sphere.hit (s : Sphere) (ray : Ray ℝ) (t_min t_max : ℝ) : Option (Hit ℝ) :=
  if s.discriminant ray < 0 then
    none
  else if s.root1 ray < t_min ∨ t_max < s.root1 ray then
    if s.root2 ray < t_min ∨ t_max < s.root2 ray then
      none
    else
      some (s.mkHit ray (s.root2 ray))
  else
    some (s.mkHit ray (s.root1 ray))

/-- The sphere as a scene `Object` (the `IsObject` impl). -/
noncomputable def Sphere.toObject (s : Sphere) : Object ℝ :=
  ⟨s.hit, s.bounds⟩

theorem Vec3.norm_squared_pos {v : Vec3 ℝ} (hv : v ≠ Vec3.origin) :
    0 < v.norm_squared := by
  rw [Vec3.norm_squared]
  rcases lt_or_eq_of_le (by positivity : (0 : ℝ) ≤ v.x ^ 2 + v.y ^ 2 + v.z ^ 2) with h | h
  · exact h
  · exfalso
    apply hv
    have h1 : v.x ^ 2 = 0 := by nlinarith [sq_nonneg v.x, sq_nonneg v.y, sq_nonneg v.z]
    have h2 : v.y ^ 2 = 0 := by nlinarith [sq_nonneg v.x, sq_nonneg v.y, sq_nonneg v.z]
    have h3 : v.z ^ 2 = 0 := by nlinarith [sq_nonneg v.x, sq_nonneg v.y, sq_nonneg v.z]
    rw [pow_eq_zero_iff (two_ne_zero)] at h1 h2 h3
    have hveq : v = ⟨v.x, v.y, v.z⟩ := rfl
    rw [hveq, h1, h2, h3, Vec3.origin]

/-- The conclusion of the C6 claim, at given inputs: `None` on a
negative discriminant; otherwise the smaller root is selected first, the
larger root is the fallback, `None` when both are outside the closed
window; any returned hit carries the selected root as its `t`, inside
the window. -/
def SphereHitSpec (s : Sphere) (ray : Ray ℝ) (t_min t_max : ℝ) : Prop :=
  (s.discriminant ray < 0 → s.hit ray t_min t_max = none) ∧
  (0 ≤ s.discriminant ray → s.root1 ray ≤ s.root2 ray) ∧
  (Option.map Hit.t (s.hit ray t_min t_max) =
    if s.discriminant ray < 0 then none
    else if s.root1 ray < t_min ∨ t_max < s.root1 ray then
      if s.root2 ray < t_min ∨ t_max < s.root2 ray then none
      else some (s.root2 ray)
    else some (s.root1 ray)) ∧
  (∀ h, s.hit ray t_min t_max = some h → t_min ≤ h.t ∧ h.t ≤ t_max)

/-- C6: `Sphere::hit` rejects a negative discriminant, otherwise
selects the smaller quadratic root, falls back to the larger root when
the smaller lies outside the closed window, returns `None` when both do,
and any returned hit has `t` equal to the selected root, within
`[t_min, t_max]`. (The direction must be nonzero for the quadratic to be
non-degenerate; `a = |direction|²` is then positive and `root1 ≤ root2`.) -/
theorem sphere_hit_root_selection (s : Sphere) (ray : Ray ℝ) (t_min t_max : ℝ)
    (hdir : ray.direction ≠ Vec3.origin) :
    SphereHitSpec s ray t_min t_max := by
  have ha : 0 < ray.direction.norm_squared := Vec3.norm_squared_pos hdir
  refine ⟨?_, ?_, ?_, ?_⟩
  · intro hneg
    rw [Sphere.hit, if_pos hneg]
  · intro _
    rw [Sphere.root1, Sphere.root2, div_le_div_iff_of_pos_right ha]
    have := Real.sqrt_nonneg (s.discriminant ray)
    linarith
  · rw [Sphere.hit]
    by_cases hneg : s.discriminant ray < 0
    · rw [if_pos hneg, if_pos hneg]
      rfl
    · rw [if_neg hneg, if_neg hneg]
      by_cases h1 : s.root1 ray < t_min ∨ t_max < s.root1 ray
      · rw [if_pos h1, if_pos h1]
        by_cases h2 : s.root2 ray < t_min ∨ t_max < s.root2 ray
        · rw [if_pos h2, if_pos h2]
          rfl
        · rw [if_neg h2, if_neg h2]
          rfl
      · rw [if_neg h1, if_neg h1]
        rfl
  · intro h hh
    rw [Sphere.hit] at hh
    by_cases hneg : s.discriminant ray < 0
    · rw [if_pos hneg] at hh
      exact absurd hh (by simp)
    · rw [if_neg hneg] at hh
      by_cases h1 : s.root1 ray < t_min ∨ t_max < s.root1 ray
      · rw [if_pos h1] at hh
        by_cases h2 : s.root2 ray < t_min ∨ t_max < s.root2 ray
        · rw [if_pos h2] at hh
          exact absurd hh (by simp)
        · rw [if_neg h2] at hh
          push_neg at h2
          have ht : h.t = s.root2 ray := by
            rw [← Option.some_inj.mp hh]
            rfl
          rw [ht]
          exact h2
      · rw [if_neg h1] at hh
        push_neg at h1
        have ht : h.t = s.root1 ray := by
          rw [← Option.some_inj.mp hh]
          rfl
        rw [ht]
        exact h1

/-- The sphere of the pole-hit input: unit sphere at the origin. -/
def poleSphere : Sphere :=
  ⟨⟨0, 0, 0⟩, 1, 0⟩

/-- The pole-hit ray: straight down onto the sphere's north pole. -/
def poleRay : Ray ℝ :=
  ⟨⟨0, 3, 0⟩, ⟨0, -1, 0⟩⟩

theorem sphere_hit_root_selection_witness :
    (poleRay.direction ≠ Vec3.origin) ∧ SphereHitSpec poleSphere poleRay 0 10 := by
  have hdir : poleRay.direction ≠ Vec3.origin := by
    rw [poleRay, Vec3.origin]
    intro hcontra
    have := congrArg Vec3.y hcontra
    norm_num at this
  exact ⟨hdir, sphere_hit_root_selection poleSphere poleRay 0 10 hdir⟩

/-! ### C7: texture coordinates at a pole hit -/

theorem poleSphere_half_b : poleSphere.half_b poleRay = -3 := by
  norm_num [Sphere.half_b, poleSphere, poleRay, Vec3.dot]

theorem poleRay_a : poleRay.direction.norm_squared = 1 := by
  norm_num [poleRay, Vec3.norm_squared]

theorem poleSphere_cval : poleSphere.cval poleRay = 8 := by
  norm_num [Sphere.cval, poleSphere, poleRay, Vec3.norm_squared]

theorem poleSphere_disc : poleSphere.discriminant poleRay = 1 := by
  rw [Sphere.discriminant, poleSphere_half_b, poleRay_a, poleSphere_cval]
  norm_num

theorem poleSphere_root1 : poleSphere.root1 poleRay = 2 := by
  rw [Sphere.root1, poleSphere_half_b, poleRay_a, poleSphere_disc]
  norm_num

theorem poleSphere_hit_eval :
    poleSphere.hit poleRay 0 10 = some (poleSphere.mkHit poleRay 2) := by
  rw [Sphere.hit, if_neg (by rw [poleSphere_disc]; norm_num),
    if_neg (by rw [poleSphere_root1]; norm_num), poleSphere_root1]

theorem poleSphere_mkHit_v : (poleSphere.mkHit poleRay 2).texture_coord.v = 1 := by
  have hpt : poleRay.at 2 = ⟨0, 1, 0⟩ := by
    norm_num [Ray.at, poleRay]
  simp only [Sphere.mkHit, hpt]
  norm_num [poleRay, poleSphere, Vec3.dot, Real.arccos_neg_one, Real.pi_ne_zero]

/-- C7 fails on the code: a ray cast straight down onto the north pole
of the unit sphere produces a hit whose texture coordinate `v` equals
`1`, violating `v < 1` (and the debug assertions `theta < PI` and
`v < 1.0`, since `acos(-1.0)` is exactly `PI` in `f64` as well). -/
theorem sphere_pole_hit_v_eq_one :
    Option.map (fun h : Hit ℝ => h.texture_coord.v) (poleSphere.hit poleRay 0 10) = some 1 := by
  rw [poleSphere_hit_eval]
  show some (poleSphere.mkHit poleRay 2).texture_coord.v = some 1
  rw [poleSphere_mkHit_v]

/-! ### C9: refraction -/

@[simp]
theorem Vec3.add_x {α : Type} [Add α] (a b : Vec3 α) : (a + b).x = a.x + b.x := rfl

@[simp]
theorem Vec3.add_y {α : Type} [Add α] (a b : Vec3 α) : (a + b).y = a.y + b.y := rfl

@[simp]
theorem Vec3.add_z {α : Type} [Add α] (a b : Vec3 α) : (a + b).z = a.z + b.z := rfl

@[simp]
theorem Vec3.sub_x {α : Type} [Sub α] (a b : Vec3 α) : (a - b).x = a.x - b.x := rfl

@[simp]
theorem Vec3.sub_y {α : Type} [Sub α] (a b : Vec3 α) : (a - b).y = a.y - b.y := rfl

@[simp]
theorem Vec3.sub_z {α : Type} [Sub α] (a b : Vec3 α) : (a - b).z = a.z - b.z := rfl

@[simp]
theorem Vec3.smul_x {α : Type} [Mul α] (k : α) (a : Vec3 α) : (k • a).x = k * a.x := rfl

@[simp]
theorem Vec3.smul_y {α : Type} [Mul α] (k : α) (a : Vec3 α) : (k • a).y = k * a.y := rfl

@[simp]
theorem Vec3.smul_z {α : Type} [Mul α] (k : α) (a : Vec3 α) : (k • a).z = k * a.z := rfl

/-- Mirror of `Vec3::norm` over the reals. -/
noncomputable def Vec3.norm (v : Vec3 ℝ) : ℝ :=
  Real.sqrt v.norm_squared

theorem Vec3.norm_squared_smul (k : ℝ) (a : Vec3 ℝ) :
    (k • a).norm_squared = k ^ 2 * a.norm_squared := by
  simp only [Vec3.norm_squared, Vec3.smul_x, Vec3.smul_y, Vec3.smul_z]
  ring

theorem Vec3.norm_squared_add_smul (p n : Vec3 ℝ) (q : ℝ) :
    (p + q • n).norm_squared =
      p.norm_squared + 2 * q * p.dot n + q ^ 2 * n.norm_squared := by
  simp only [Vec3.norm_squared, Vec3.dot, Vec3.add_x, Vec3.add_y, Vec3.add_z,
    Vec3.smul_x, Vec3.smul_y, Vec3.smul_z]
  ring

theorem Vec3.smul_dot (k : ℝ) (a b : Vec3 ℝ) :
    (k • a).dot b = k * a.dot b := by
  simp only [Vec3.dot, Vec3.smul_x, Vec3.smul_y, Vec3.smul_z]
  ring

theorem Vec3.add_dot (a b c : Vec3 ℝ) :
    (a + b).dot c = a.dot c + b.dot c := by
  simp only [Vec3.dot, Vec3.add_x, Vec3.add_y, Vec3.add_z]
  ring

theorem Vec3.negate_dot (a b : Vec3 ℝ) :
    a.negate.dot b = -(a.dot b) := by
  simp only [Vec3.negate, Vec3.dot, Vec3.smul_x, Vec3.smul_y, Vec3.smul_z]
  ring

theorem Vec3.dot_self (a : Vec3 ℝ) : a.dot a = a.norm_squared := by
  simp only [Vec3.dot, Vec3.norm_squared]
  ring

/-- Mirror of `Vec3::refract` in `src/vec3.rs`, over the reals, with
the local `let` bindings of the source inlined (`cos_theta` is the dot
product of the negated incoming vector with the normal, `sin_theta` is
`sqrt(1 - cos_theta^2)`, `refraction_ratio` is `eta_from / eta_to`).
The two `assert!`s on unit norms are hypotheses of the theorems below. -/
noncomputable def Vec3.refract (v normal : Vec3 ℝ) (eta_from eta_to : ℝ) : Option (Vec3 ℝ) :=
  if (eta_from / eta_to) * Real.sqrt (1 - (v.negate.dot normal) ^ 2) > 1 then
    none
  else
    some ((eta_from / eta_to) • (v + (v.negate.dot normal) • normal) +
      (-Real.sqrt (1 -
        ((eta_from / eta_to) • (v + (v.negate.dot normal) • normal)).norm_squared)) • normal)

theorem norm_eq_one_iff_norm_squared {v : Vec3 ℝ} (hv : v.norm = 1) :
    v.norm_squared = 1 := by
  have h0 : 0 ≤ v.norm_squared := by
    rw [Vec3.norm_squared]
    positivity
  have hsq := Real.sq_sqrt h0
  rw [Vec3.norm] at hv
  rw [hv] at hsq
  simpa using hsq.symm

/-- C9: for unit-length `v` and `normal` (and positive refractive
indices, the domain of the physical quantities `eta_from`, `eta_to`),
`Vec3::refract` returns `None` exactly when
`(eta_from/eta_to) * sin(theta) > 1`, where `cos(theta)` is the dot
product of the negated incoming vector with the normal and
`sin(theta) = sqrt(1 - cos(theta)^2)`; in every other case it returns
`Some` of a unit-length vector. -/
theorem refract_none_iff_and_unit (v n : Vec3 ℝ) (eta_from eta_to : ℝ)
    (hv : v.norm = 1) (hn : n.norm = 1) (hfrom : 0 < eta_from) (hto : 0 < eta_to) :
    (Vec3.refract v n eta_from eta_to = none ↔
      1 < (eta_from / eta_to) * Real.sqrt (1 - (v.negate.dot n) ^ 2)) ∧
    (∀ w, Vec3.refract v n eta_from eta_to = some w → w.norm = 1) := by
  have hvns : v.norm_squared = 1 := norm_eq_one_iff_norm_squared hv
  have hnns : n.norm_squared = 1 := norm_eq_one_iff_norm_squared hn
  have hrpos : 0 < eta_from / eta_to := div_pos hfrom hto
  constructor
  · constructor
    · intro hnone
      by_contra hng
      rw [Vec3.refract, if_neg (by exact fun h => hng h)] at hnone
      exact Option.some_ne_none _ hnone
    · intro hg
      rw [Vec3.refract, if_pos hg]
  · intro w hw
    by_cases hg : 1 < (eta_from / eta_to) * Real.sqrt (1 - (v.negate.dot n) ^ 2)
    · rw [Vec3.refract, if_pos hg] at hw
      exact absurd hw (by simp)
    · rw [Vec3.refract, if_neg hg] at hw
      push_neg at hg
      set r := eta_from / eta_to with hr
      set c := v.negate.dot n with hc
      have hdotvn : v.dot n = -c := by
        rw [hc, Vec3.negate_dot]
        ring
      set p := r • (v + c • n) with hp
      have hpns : p.norm_squared = r ^ 2 * (1 - c ^ 2) := by
        rw [hp, Vec3.norm_squared_smul, Vec3.norm_squared_add_smul, hdotvn, hvns, hnns]
        ring
      have h1c : 0 ≤ 1 - c ^ 2 := by
        have hpos : 0 ≤ (v + c • n).norm_squared := by
          rw [Vec3.norm_squared]
          positivity
        rw [Vec3.norm_squared_add_smul, hdotvn, hvns, hnns] at hpos
        nlinarith
      have hsq : Real.sqrt (1 - c ^ 2) ^ 2 = 1 - c ^ 2 := Real.sq_sqrt h1c
      have hprod : (r * Real.sqrt (1 - c ^ 2)) * (r * Real.sqrt (1 - c ^ 2)) ≤ 1 := by
        have h0 : 0 ≤ r * Real.sqrt (1 - c ^ 2) :=
          mul_nonneg hrpos.le (Real.sqrt_nonneg _)
        calc (r * Real.sqrt (1 - c ^ 2)) * (r * Real.sqrt (1 - c ^ 2)) ≤ 1 * 1 :=
              mul_le_mul hg hg h0 zero_le_one
          _ = 1 := one_mul 1
      have hpns_le : p.norm_squared ≤ 1 := by
        rw [hpns]
        nlinarith [hprod, hsq]
      have hq0 : 0 ≤ 1 - p.norm_squared := by linarith
      have hq2 : Real.sqrt (1 - p.norm_squared) ^ 2 = 1 - p.norm_squared :=
        Real.sq_sqrt hq0
      have hpn : p.dot n = 0 := by
        rw [hp, Vec3.smul_dot, Vec3.add_dot, Vec3.smul_dot, Vec3.dot_self, hdotvn, hnns]
        ring
      have hwval : w = p + (-Real.sqrt (1 - p.norm_squared)) • n := by
        exact (Option.some_inj.mp hw).symm
      have hwns : w.norm_squared = 1 := by
        rw [hwval, Vec3.norm_squared_add_smul, hpn, hnns, neg_pow, hq2]
        ring
      rw [Vec3.norm, hwns, Real.sqrt_one]

/-- Witness input for C9: incoming straight along the normal. -/
def refractV : Vec3 ℝ :=
  ⟨0, 0, -1⟩

/-- Witness normal for C9. -/
def refractN : Vec3 ℝ :=
  ⟨0, 0, 1⟩

theorem refract_none_iff_and_unit_witness :
    (refractV.norm = 1 ∧ refractN.norm = 1 ∧ (0 : ℝ) < 1 ∧ (0 : ℝ) < 3 / 2) ∧
    ((Vec3.refract refractV refractN 1 (3 / 2) = none ↔
      1 < ((1 : ℝ) / (3 / 2)) * Real.sqrt (1 - (refractV.negate.dot refractN) ^ 2)) ∧
    (∀ w, Vec3.refract refractV refractN 1 (3 / 2) = some w → w.norm = 1)) := by
  have hv : refractV.norm = 1 := by
    rw [Vec3.norm, Vec3.norm_squared, refractV]
    norm_num
  have hn : refractN.norm = 1 := by
    rw [Vec3.norm, Vec3.norm_squared, refractN]
    norm_num
  exact ⟨⟨hv, hn, by norm_num, by norm_num⟩,
    refract_none_iff_and_unit refractV refractN 1 (3 / 2) hv hn (by norm_num) (by norm_num)⟩

/-! ### C8: camera construction -/

theorem Vec3.norm_eq_zero_iff (v : Vec3 ℝ) : v.norm = 0 ↔ v = Vec3.origin := by
  constructor
  · intro h
    by_contra hne
    have hpos : 0 < v.norm_squared := Vec3.norm_squared_pos hne
    have := Real.sqrt_pos.mpr hpos
    rw [Vec3.norm] at h
    linarith
  · intro h
    rw [h, Vec3.norm]
    have : (Vec3.origin : Vec3 ℝ).norm_squared = 0 := by
      rw [Vec3.norm_squared, Vec3.origin]
      norm_num
    rw [this, Real.sqrt_zero]

theorem Vec3.smul_smul (k l : ℝ) (v : Vec3 ℝ) : k • (l • v) = (k * l) • v := by
  have : v = ⟨v.x, v.y, v.z⟩ := rfl
  rw [this, Vec3.smul_mk, Vec3.smul_mk, Vec3.smul_mk, Vec3.mk.injEq]
  refine ⟨by ring, by ring, by ring⟩

theorem Vec3.one_smul (v : Vec3 ℝ) : (1 : ℝ) • v = v := by
  have : v = ⟨v.x, v.y, v.z⟩ := rfl
  rw [this, Vec3.smul_mk, Vec3.mk.injEq]
  refine ⟨by ring, by ring, by ring⟩

theorem Vec3.smul_origin (k : ℝ) : k • (Vec3.origin : Vec3 ℝ) = Vec3.origin := by
  rw [Vec3.origin, Vec3.smul_mk, Vec3.mk.injEq]
  norm_num

theorem Vec3.smul_eq_origin {k : ℝ} {v : Vec3 ℝ} (hk : k ≠ 0)
    (h : k • v = Vec3.origin) : v = Vec3.origin := by
  have hx := congrArg Vec3.x h
  have hy := congrArg Vec3.y h
  have hz := congrArg Vec3.z h
  simp only [Vec3.smul_x, Vec3.smul_y, Vec3.smul_z, Vec3.origin] at hx hy hz
  have hveq : v = ⟨v.x, v.y, v.z⟩ := rfl
  rw [hveq, Vec3.origin, Vec3.mk.injEq]
  exact ⟨by rcases mul_eq_zero.mp hx with h | h; exact absurd h hk; exact h,
    by rcases mul_eq_zero.mp hy with h | h; exact absurd h hk; exact h,
    by rcases mul_eq_zero.mp hz with h | h; exact absurd h hk; exact h⟩

theorem Vec3.cross_self (a : Vec3 ℝ) : a.cross a = Vec3.origin := by
  rw [Vec3.cross, Vec3.origin, Vec3.mk.injEq]
  refine ⟨by ring, by ring, by ring⟩

theorem Vec3.cross_smul_left (k : ℝ) (a b : Vec3 ℝ) :
    (k • a).cross b = k • (a.cross b) := by
  rw [Vec3.cross, Vec3.cross, Vec3.smul_mk, Vec3.mk.injEq]
  simp only [Vec3.smul_x, Vec3.smul_y, Vec3.smul_z]
  refine ⟨by ring, by ring, by ring⟩

theorem Vec3.cross_smul_right (k : ℝ) (a b : Vec3 ℝ) :
    a.cross (k • b) = k • (a.cross b) := by
  rw [Vec3.cross, Vec3.cross, Vec3.smul_mk, Vec3.mk.injEq]
  simp only [Vec3.smul_x, Vec3.smul_y, Vec3.smul_z]
  refine ⟨by ring, by ring, by ring⟩

theorem Vec3.dot_smul_right (k : ℝ) (a b : Vec3 ℝ) :
    a.dot (k • b) = k * (a.dot b) := by
  simp only [Vec3.dot, Vec3.smul_x, Vec3.smul_y, Vec3.smul_z]
  ring

theorem Vec3.dot_cross_self (a b : Vec3 ℝ) : a.dot (b.cross a) = 0 := by
  simp only [Vec3.dot, Vec3.cross]
  ring

/-- Lagrange identity for the cross product. -/
theorem Vec3.cross_norm_squared (a b : Vec3 ℝ) :
    (a.cross b).norm_squared = a.norm_squared * b.norm_squared - (a.dot b) ^ 2 := by
  simp only [Vec3.norm_squared, Vec3.dot, Vec3.cross]
  ring

theorem Vec3.unit_norm_squared (v : Vec3 ℝ) (hv : v.norm ≠ 0) :
    (((1 : ℝ) / v.norm) • v).norm_squared = 1 := by
  rw [Vec3.norm_squared_smul]
  have h0 : 0 ≤ v.norm_squared := by
    rw [Vec3.norm_squared]
    positivity
  have hsq : v.norm ^ 2 = v.norm_squared := Real.sq_sqrt h0
  have hns0 : v.norm_squared ≠ 0 := by
    intro h
    apply hv
    rw [Vec3.norm, h, Real.sqrt_zero]
  field_simp
  linarith [hsq]

/-- Parallel vectors: one is a nonzero scalar multiple of the other. -/
def Parallel (a b : Vec3 ℝ) : Prop :=
  ∃ k : ℝ, k ≠ 0 ∧ a = k • b

theorem Vec3.ne_origin_iff (b : Vec3 ℝ) :
    b ≠ Vec3.origin ↔ b.x ≠ 0 ∨ b.y ≠ 0 ∨ b.z ≠ 0 := by
  constructor
  · intro hb
    by_contra hcon
    push_neg at hcon
    obtain ⟨h1, h2, h3⟩ := hcon
    apply hb
    have hbeq : b = ⟨b.x, b.y, b.z⟩ := rfl
    rw [hbeq, h1, h2, h3, Vec3.origin]
  · intro h hcontra
    rcases h with h | h | h <;> exact h (by rw [hcontra, Vec3.origin])

theorem Vec3.cross_eq_origin_iff_parallel {a b : Vec3 ℝ}
    (ha : a ≠ Vec3.origin) (hb : b ≠ Vec3.origin) :
    a.cross b = Vec3.origin ↔ Parallel a b := by
  constructor
  · intro h
    have hx := congrArg Vec3.x h
    have hy := congrArg Vec3.y h
    have hz := congrArg Vec3.z h
    simp only [Vec3.cross, Vec3.origin] at hx hy hz
    have haeq : a = ⟨a.x, a.y, a.z⟩ := rfl
    rcases (Vec3.ne_origin_iff b).mp hb with hbx | hby | hbz
    · refine ⟨a.x / b.x, ?_, ?_⟩
      · intro hk
        apply ha
        have hax : a.x = 0 := by
          field_simp at hk
          exact hk
        have hay : a.y = 0 := by
          have : a.x * b.y - a.y * b.x = 0 := hz
          rw [hax] at this
          have := mul_eq_zero.mp (by linarith : a.y * b.x = 0)
          rcases this with h | h
          · exact h
          · exact absurd h hbx
        have haz : a.z = 0 := by
          have : a.z * b.x - a.x * b.z = 0 := hy
          rw [hax] at this
          have := mul_eq_zero.mp (by linarith : a.z * b.x = 0)
          rcases this with h | h
          · exact h
          · exact absurd h hbx
        rw [haeq, hax, hay, haz, Vec3.origin]
      · rw [haeq]
        have hbeq : b = ⟨b.x, b.y, b.z⟩ := rfl
        rw [hbeq, Vec3.smul_mk, Vec3.mk.injEq]
        refine ⟨by field_simp, ?_, ?_⟩
        · have : a.x * b.y - a.y * b.x = 0 := hz
          field_simp
          linarith
        · have : a.z * b.x - a.x * b.z = 0 := hy
          field_simp
          linarith
    · refine ⟨a.y / b.y, ?_, ?_⟩
      · intro hk
        apply ha
        have hay : a.y = 0 := by
          field_simp at hk
          exact hk
        have hax : a.x = 0 := by
          have : a.x * b.y - a.y * b.x = 0 := hz
          rw [hay] at this
          have := mul_eq_zero.mp (by linarith : a.x * b.y = 0)
          rcases this with h | h
          · exact h
          · exact absurd h hby
        have haz : a.z = 0 := by
          have : a.y * b.z - a.z * b.y = 0 := hx
          rw [hay] at this
          have := mul_eq_zero.mp (by linarith : a.z * b.y = 0)
          rcases this with h | h
          · exact h
          · exact absurd h hby
        rw [haeq, hax, hay, haz, Vec3.origin]
      · rw [haeq]
        have hbeq : b = ⟨b.x, b.y, b.z⟩ := rfl
        rw [hbeq, Vec3.smul_mk, Vec3.mk.injEq]
        refine ⟨?_, by field_simp, ?_⟩
        · have : a.x * b.y - a.y * b.x = 0 := hz
          field_simp
          linarith
        · have : a.y * b.z - a.z * b.y = 0 := hx
          field_simp
          linarith
    · refine ⟨a.z / b.z, ?_, ?_⟩
      · intro hk
        apply ha
        have haz : a.z = 0 := by
          field_simp at hk
          exact hk
        have hax : a.x = 0 := by
          have : a.z * b.x - a.x * b.z = 0 := hy
          rw [haz] at this
          have := mul_eq_zero.mp (by linarith : a.x * b.z = 0)
          rcases this with h | h
          · exact h
          · exact absurd h hbz
        have hay : a.y = 0 := by
          have : a.y * b.z - a.z * b.y = 0 := hx
          rw [haz] at this
          have := mul_eq_zero.mp (by linarith : a.y * b.z = 0)
          rcases this with h | h
          · exact h
          · exact absurd h hbz
        rw [haeq, hax, hay, haz, Vec3.origin]
      · rw [haeq]
        have hbeq : b = ⟨b.x, b.y, b.z⟩ := rfl
        rw [hbeq, Vec3.smul_mk, Vec3.mk.injEq]
        refine ⟨?_, ?_, by field_simp⟩
        · have : a.z * b.x - a.x * b.z = 0 := hy
          field_simp
          linarith
        · have : a.y * b.z - a.z * b.y = 0 := hx
          field_simp
          linarith
  · rintro ⟨k, hk, rfl⟩
    rw [Vec3.cross_smul_left, Vec3.cross_self, Vec3.smul_origin]

/-- Mirror of `Vec3::unit` with its division-by-zero debug assertion
made explicit: `none` models the debug-build abort on a zero vector
(the Rust body is `*self / norm`, and `Div` is `1.0/rhs * self`). -/
noncomputable def Vec3.unitE (v : Vec3 ℝ) : Option (Vec3 ℝ) :=
  if v.norm = 0 then none else some (((1 : ℝ) / v.norm) • v)

/-- Mirror of `Camera` in `src/camera.rs`. -/
structure Camera where
  origin : Vec3 ℝ
  u : Vec3 ℝ
  v : Vec3 ℝ
  w : Vec3 ℝ
  horizontal : Vec3 ℝ
  vertical : Vec3 ℝ
  lower_left_corner : Vec3 ℝ
  lens_radius : ℝ

/-- The camera record built at the end of `Camera::new` once the
orthonormal frame `u`, `v`, `w` is available: `viewport_height` is
`2 * tan(v_fov.to_radians() / 2)` with `to_radians` being
`* pi / 180`, `viewport_width` is `viewport_height * aspect_ratio`,
`horizontal`/`vertical` scale `u`/`v` by `focal_distance` times the
viewport dimensions, and `lower_left_corner` backs away from the origin
by half of each plus `focal_distance * w`. -/
noncomputable def cameraPayload (aspect_ratio v_fov : ℝ) (look_from : Vec3 ℝ)
    (aperture focal_distance : ℝ) (u v w : Vec3 ℝ) : Camera :=
  { origin := look_from
    u := u
    v := v
    w := w
    horizontal :=
      (focal_distance * (2 * Real.tan (v_fov * Real.pi / 180 / 2) * aspect_ratio)) • u
    vertical :=
      (focal_distance * (2 * Real.tan (v_fov * Real.pi / 180 / 2))) • v
    lower_left_corner := look_from -
      ((1 : ℝ) / 2) •
        ((focal_distance * (2 * Real.tan (v_fov * Real.pi / 180 / 2) * aspect_ratio)) • u) -
      ((1 : ℝ) / 2) •
        ((focal_distance * (2 * Real.tan (v_fov * Real.pi / 180 / 2))) • v) -
      focal_distance • w
    lens_radius := aperture / 2 }

/-- Mirror of `Camera::new` in `src/camera.rs`, with the aborts made
explicit as `none`: the explicit `panic!` when `up.unit() == w`, and the
division-by-zero debug assertion inside each `Vec3::unit` call (for
`w`, `up.unit()`, `u` and `v`; `unit` is `(1/norm) * self`, asserting
`norm != 0`). -/
noncomputable def Camera.new (aspect_ratio v_fov : ℝ) (up look_from look_at : Vec3 ℝ)
    (aperture focal_distance : ℝ) : Option Camera :=
  if (look_from - look_at).norm = 0 then none
  else if up.norm = 0 then none
  else if ((1 : ℝ) / up.norm) • up =
      ((1 : ℝ) / (look_from - look_at).norm) • (look_from - look_at) then none
  else if (up.cross (((1 : ℝ) / (look_from - look_at).norm) • (look_from - look_at))).norm = 0 then
    none
  else if ((((1 : ℝ) / (look_from - look_at).norm) • (look_from - look_at)).cross
      (((1 : ℝ) /
        (up.cross (((1 : ℝ) / (look_from - look_at).norm) • (look_from - look_at))).norm) •
        (up.cross (((1 : ℝ) / (look_from - look_at).norm) • (look_from - look_at))))).norm = 0 then
    none
  else
    some (cameraPayload aspect_ratio v_fov look_from aperture focal_distance
      (((1 : ℝ) /
        (up.cross (((1 : ℝ) / (look_from - look_at).norm) • (look_from - look_at))).norm) •
        (up.cross (((1 : ℝ) / (look_from - look_at).norm) • (look_from - look_at))))
      (((1 : ℝ) /
        ((((1 : ℝ) / (look_from - look_at).norm) • (look_from - look_at)).cross
          (((1 : ℝ) /
            (up.cross (((1 : ℝ) / (look_from - look_at).norm) • (look_from - look_at))).norm) •
            (up.cross (((1 : ℝ) / (look_from - look_at).norm) • (look_from - look_at))))).norm) •
        ((((1 : ℝ) / (look_from - look_at).norm) • (look_from - look_at)).cross
          (((1 : ℝ) /
            (up.cross (((1 : ℝ) / (look_from - look_at).norm) • (look_from - look_at))).norm) •
            (up.cross (((1 : ℝ) / (look_from - look_at).norm) • (look_from - look_at))))))
      (((1 : ℝ) / (look_from - look_at).norm) • (look_from - look_at)))

/-- C8: `Camera::new` aborts (modelled as `none`) exactly when the up
vector is parallel to the look direction `look_from - look_at`, in
either orientation: the same-direction case trips the explicit panic
`up.unit() == w`, the opposite-direction case makes `up.cross(w)` zero
and trips the division-by-zero assertion inside `Vec3::unit`; every
non-parallel configuration returns normally. (The up vector and the
look direction must themselves be nonzero, the caller contract of
`Vec3::unit`.) -/
theorem camera_new_none_iff_parallel (aspect_ratio v_fov : ℝ)
    (up look_from look_at : Vec3 ℝ) (aperture focal_distance : ℝ)
    (hup : up ≠ Vec3.origin) (hlook : look_from - look_at ≠ Vec3.origin) :
    (Camera.new aspect_ratio v_fov up look_from look_at aperture focal_distance = none ↔
      Parallel up (look_from - look_at)) := by
  have hdn : (look_from - look_at).norm ≠ 0 :=
    fun h => hlook ((Vec3.norm_eq_zero_iff _).mp h)
  have hupn : up.norm ≠ 0 :=
    fun h => hup ((Vec3.norm_eq_zero_iff _).mp h)
  rw [Camera.new, if_neg hdn, if_neg hupn]
  by_cases heq : ((1 : ℝ) / up.norm) • up =
      ((1 : ℝ) / (look_from - look_at).norm) • (look_from - look_at)
  · rw [if_pos heq]
    simp only [true_iff]
    refine ⟨up.norm / (look_from - look_at).norm, ?_, ?_⟩
    · exact div_ne_zero hupn hdn
    · have hthis := congrArg (fun t => up.norm • t) heq
      simp only at hthis
      rw [Vec3.smul_smul, Vec3.smul_smul, mul_one_div, div_self hupn, Vec3.one_smul,
        mul_one_div] at hthis
      exact hthis
  · rw [if_neg heq]
    by_cases hcross : up.cross (((1 : ℝ) / (look_from - look_at).norm) • (look_from - look_at)) =
        Vec3.origin
    · have hcrossd : up.cross (look_from - look_at) = Vec3.origin := by
        rw [Vec3.cross_smul_right] at hcross
        exact Vec3.smul_eq_origin (one_div_ne_zero hdn) hcross
      rw [if_pos ((Vec3.norm_eq_zero_iff _).mpr hcross)]
      simp only [true_iff]
      exact (Vec3.cross_eq_origin_iff_parallel hup hlook).mp hcrossd
    · have hcn : (up.cross (((1 : ℝ) / (look_from - look_at).norm) • (look_from - look_at))).norm ≠ 0 :=
        fun h => hcross ((Vec3.norm_eq_zero_iff _).mp h)
      have hwns : (((1 : ℝ) / (look_from - look_at).norm) • (look_from - look_at)).norm_squared = 1 :=
        Vec3.unit_norm_squared _ hdn
      have huns : (((1 : ℝ) /
          (up.cross (((1 : ℝ) / (look_from - look_at).norm) • (look_from - look_at))).norm) •
          (up.cross (((1 : ℝ) / (look_from - look_at).norm) • (look_from - look_at)))).norm_squared = 1 :=
        Vec3.unit_norm_squared _ hcn
      have hwu_dot : (((1 : ℝ) / (look_from - look_at).norm) • (look_from - look_at)).dot
          (((1 : ℝ) /
            (up.cross (((1 : ℝ) / (look_from - look_at).norm) • (look_from - look_at))).norm) •
            (up.cross (((1 : ℝ) / (look_from - look_at).norm) • (look_from - look_at)))) = 0 := by
        rw [Vec3.dot_smul_right, Vec3.dot_cross_self, mul_zero]
      have hvns : ((((1 : ℝ) / (look_from - look_at).norm) • (look_from - look_at)).cross
          (((1 : ℝ) /
            (up.cross (((1 : ℝ) / (look_from - look_at).norm) • (look_from - look_at))).norm) •
            (up.cross (((1 : ℝ) / (look_from - look_at).norm) • (look_from - look_at))))).norm_squared = 1 := by
        rw [Vec3.cross_norm_squared, hwns, huns, hwu_dot]
        norm_num
      have hvn : ((((1 : ℝ) / (look_from - look_at).norm) • (look_from - look_at)).cross
          (((1 : ℝ) /
            (up.cross (((1 : ℝ) / (look_from - look_at).norm) • (look_from - look_at))).norm) •
            (up.cross (((1 : ℝ) / (look_from - look_at).norm) • (look_from - look_at))))).norm ≠ 0 := by
        intro h
        have hzero := (Vec3.norm_eq_zero_iff _).mp h
        rw [hzero] at hvns
        rw [Vec3.norm_squared, Vec3.origin] at hvns
        norm_num at hvns
      rw [if_neg hcn, if_neg hvn]
      constructor
      · intro hnone
        exact absurd hnone (Option.some_ne_none _)
      · intro hpar
        exfalso
        apply hcross
        obtain ⟨k, hk, hkeq⟩ := hpar
        rw [hkeq, Vec3.cross_smul_right, Vec3.cross_smul_left, Vec3.cross_self,
          Vec3.smul_origin, Vec3.smul_origin]

/-- Witness up vector for C8: twice the look direction (parallel). -/
def upParallel : Vec3 ℝ :=
  ⟨0, 0, 2⟩

/-- Witness look-from point for C8. -/
def lookFromW : Vec3 ℝ :=
  ⟨0, 0, 1⟩

theorem camera_new_none_iff_parallel_witness :
    (upParallel ≠ Vec3.origin ∧ (lookFromW - Vec3.origin) ≠ Vec3.origin) ∧
    (Camera.new 1 90 upParallel lookFromW Vec3.origin 0 1 = none ↔
      Parallel upParallel (lookFromW - Vec3.origin)) := by
  have h1 : upParallel ≠ Vec3.origin := by
    rw [upParallel, Vec3.origin]
    intro h
    have := congrArg Vec3.z h
    norm_num at this
  have h2 : (lookFromW - Vec3.origin) ≠ Vec3.origin := by
    rw [lookFromW, Vec3.origin, Vec3.sub_mk]
    intro h
    have := congrArg Vec3.z h
    norm_num at this
  exact ⟨⟨h1, h2⟩, camera_new_none_iff_parallel 1 90 upParallel lookFromW Vec3.origin 0 1 h1 h2⟩

/-! ### C1, part 1: boundary counterexample to exact BVH/brute-force agreement -/

/-- The counterexample sphere: unit sphere at the origin. -/
def probeSphere : Sphere :=
  ⟨⟨0, 0, 0⟩, 1, 0⟩

/-- The counterexample ray: along the negative X axis from `(3,0,0)`. -/
def probeRay : Ray ℝ :=
  ⟨⟨3, 0, 0⟩, ⟨-1, 0, 0⟩⟩

theorem probeSphere_bounds :
    probeSphere.bounds = ⟨⟨-1, -1, -1⟩, ⟨1, 1, 1⟩⟩ := by
  rw [Sphere.bounds, probeSphere]
  norm_num [Bounds3.new, min_def, max_def]

theorem probeSphere_half_b : probeSphere.half_b probeRay = -3 := by
  norm_num [Sphere.half_b, probeSphere, probeRay, Vec3.dot]

theorem probeRay_a : probeRay.direction.norm_squared = 1 := by
  norm_num [probeRay, Vec3.norm_squared]

theorem probeSphere_cval : probeSphere.cval probeRay = 8 := by
  norm_num [Sphere.cval, probeSphere, probeRay, Vec3.norm_squared]

theorem probeSphere_disc : probeSphere.discriminant probeRay = 1 := by
  rw [Sphere.discriminant, probeSphere_half_b, probeRay_a, probeSphere_cval]
  norm_num

theorem probeSphere_root1 : probeSphere.root1 probeRay = 2 := by
  rw [Sphere.root1, probeSphere_half_b, probeRay_a, probeSphere_disc]
  norm_num

theorem probeSphere_hit_some :
    probeSphere.hit probeRay 0 2 = some (probeSphere.mkHit probeRay 2) := by
  rw [Sphere.hit, if_neg (by rw [probeSphere_disc]; norm_num),
    if_neg (by rw [probeSphere_root1]; norm_num), probeSphere_root1]

theorem probeBounds_hit_by_false :
    Bounds3.hit_by ⟨⟨-1, -1, -1⟩, ⟨1, 1, 1⟩⟩ probeRay 0 2 = false := by
  rw [Bounds3.hit_by, slab_axes]
  rw [hitByGo_cons_nonpar (by norm_num [probeRay])]
  have hslab : slabIntervalFor ⟨⟨-1, -1, -1⟩, ⟨1, 1, 1⟩⟩ probeRay Axis3.X =
      ⟨(2 : ℝ), 4⟩ := by
    rw [slabIntervalFor]
    norm_num [probeRay, min_def, max_def]
  rw [hslab]
  have hint : (Interval.mk (0 : ℝ) 2).intersect_mut ⟨(2 : ℝ), 4⟩ = ⟨2, 2⟩ := by
    rw [Interval.intersect_mut]
    norm_num [min_def, max_def]
  rw [hint]
  rw [hitByGo_cons_par_in (by norm_num [probeRay]) (by norm_num [probeRay])]
  rw [hitByGo_cons_par_in (by norm_num [probeRay]) (by norm_num [probeRay])]
  rw [Bounds3.hitByGo]
  norm_num [Interval.is_empty]

theorem probe_bvh_eval :
    Bvh.fromItems [probeSphere.toObject] =
      Bvh.Node (BvhNode.Leaf probeSphere.bounds [probeSphere.toObject]) := by
  have hbuild : build 1 1 (mkInfos [probeSphere.toObject]) =
      some (BvhNode.Leaf probeSphere.bounds [probeSphere.toObject]) := by
    rw [mkInfos]
    simp only [List.map_cons, List.map_nil]
    rw [build]
    rw [if_pos (by rfl)]
    rfl
  show (match build 1 1 (mkInfos [probeSphere.toObject]) with
    | some node => Bvh.Node node
    | none => Bvh.Empty) = _
  rw [hbuild]

/-- C1 fails on the code at a window boundary: for the unit sphere and
the ray from `(3,0,0)` along `-X` with window `[0,2]`, the sphere's hit
is exactly at `t = 2` (accepted by the closed window test of
`Sphere::hit`), but the slab test of the enclosing box produces the
degenerate interval `[2,2]`, which the strict emptiness test
`start < end` rejects, so the BVH prunes the leaf and reports no hit
while the brute-force scan reports one. -/
theorem bvh_boundary_prune_counterexample :
    (Bvh.fromItems [probeSphere.toObject]).hit probeRay 0 2 = none ∧
    hitSlice [probeSphere.toObject] probeRay 0 2 ≠ none := by
  constructor
  · rw [probe_bvh_eval, Bvh.hit, BvhNode.hit]
    rw [if_neg (by rw [probeSphere_bounds, probeBounds_hit_by_false]; simp)]
  · rw [hitSlice, hitSliceAux]
    have hobj : (probeSphere.toObject).hit probeRay 0 2 =
        some (probeSphere.mkHit probeRay 2) := probeSphere_hit_some
    rw [hobj]
    rw [hitSliceAux]
    exact Option.some_ne_none _

/-! ### C1, part 2: structural lemmas for traversal vs. linear scan -/

theorem hitSliceAux_isSome {α : Type} (ray : Ray α) (t_min : α) :
    ∀ (os : List (Object α)) (g : Hit α) (cap : α),
      hitSliceAux ray t_min os (some g) cap ≠ none := by
  intro os
  induction os with
  | nil =>
    intro g cap h
    exact Option.some_ne_none _ h
  | cons o os ih =>
    intro g cap
    rw [hitSliceAux]
    cases ho : o.hit ray t_min cap with
    | some h2 => exact ih h2 h2.t
    | none => exact ih g cap

theorem hitSliceAux_append {α : Type} (ray : Ray α) (t_min : α) :
    ∀ (xs ys : List (Object α)) (res : Option (Hit α)) (cap : α),
      (res = none ∨ ∃ g, res = some g ∧ cap = g.t) →
      hitSliceAux ray t_min (xs ++ ys) res cap =
        match hitSliceAux ray t_min xs res cap with
        | none => hitSliceAux ray t_min ys res cap
        | some h => hitSliceAux ray t_min ys (some h) h.t := by
  intro xs
  induction xs with
  | nil =>
    intro ys res cap hinv
    rcases hinv with h | ⟨g, hg, hcap⟩
    · subst h
      rfl
    · subst hg
      subst hcap
      rfl
  | cons x xs ih =>
    intro ys res cap hinv
    cases hx : x.hit ray t_min cap with
    | some h =>
      have hl : hitSliceAux ray t_min (x :: (xs ++ ys)) res cap =
          hitSliceAux ray t_min (xs ++ ys) (some h) h.t := by
        rw [hitSliceAux, hx]
      have hr : hitSliceAux ray t_min (x :: xs) res cap =
          hitSliceAux ray t_min xs (some h) h.t := by
        rw [hitSliceAux, hx]
      rw [List.cons_append, hl, hr]
      cases hx2 : hitSliceAux ray t_min xs (some h) h.t with
      | none => exact absurd hx2 (hitSliceAux_isSome ray t_min xs h h.t)
      | some h2 =>
        have hih := ih ys (some h) h.t (Or.inr ⟨h, rfl, rfl⟩)
        rw [hx2] at hih
        exact hih
    | none =>
      have hl : hitSliceAux ray t_min (x :: (xs ++ ys)) res cap =
          hitSliceAux ray t_min (xs ++ ys) res cap := by
        rw [hitSliceAux, hx]
      have hr : hitSliceAux ray t_min (x :: xs) res cap =
          hitSliceAux ray t_min xs res cap := by
        rw [hitSliceAux, hx]
      rw [List.cons_append, hl, hr]
      exact ih ys res cap hinv

theorem hitSliceAux_restart {α : Type} (ray : Ray α) (t_min : α) :
    ∀ (ys : List (Object α)) (g : Hit α),
      hitSliceAux ray t_min ys (some g) g.t =
        match hitSliceAux ray t_min ys none g.t with
        | none => some g
        | some h => some h := by
  intro ys
  induction ys with
  | nil =>
    intro g
    rfl
  | cons y ys ih =>
    intro g
    cases hy : y.hit ray t_min g.t with
    | some h2 =>
      have hl : hitSliceAux ray t_min (y :: ys) (some g) g.t =
          hitSliceAux ray t_min ys (some h2) h2.t := by
        rw [hitSliceAux, hy]
      have hr : hitSliceAux ray t_min (y :: ys) none g.t =
          hitSliceAux ray t_min ys (some h2) h2.t := by
        rw [hitSliceAux, hy]
      rw [hl, hr]
      cases hres : hitSliceAux ray t_min ys (some h2) h2.t with
      | none => exact absurd hres (hitSliceAux_isSome ray t_min ys h2 h2.t)
      | some h3 => rfl
    | none =>
      have hl : hitSliceAux ray t_min (y :: ys) (some g) g.t =
          hitSliceAux ray t_min ys (some g) g.t := by
        rw [hitSliceAux, hy]
      have hr : hitSliceAux ray t_min (y :: ys) none g.t =
          hitSliceAux ray t_min ys none g.t := by
        rw [hitSliceAux, hy]
      rw [hl, hr]
      exact ih g

/-- Traversal equals the linear scan over the tree's items provided the
slab test never prunes a subtree whose items contain a hit within the
active window (the no-false-pruning condition). This is the structural
core of the equivalence; it needs no assumptions on the primitives. -/
theorem bvhNode_hit_eq_hitSlice {α : Type} [LinearOrderedField α] (ray : Ray α) (t_min : α) :
    ∀ (n : BvhNode α),
      (∀ s ∈ n.subtrees, ∀ cap, (hitSlice s.items ray t_min cap).isSome →
        s.bounds.hit_by ray t_min cap = true) →
      ∀ cap, n.hit ray t_min cap = hitSlice n.items ray t_min cap := by
  intro n
  induction n with
  | Leaf b items =>
    intro hnfp cap
    rw [BvhNode.hit]
    by_cases hb : b.hit_by ray t_min cap = true
    · rw [if_pos hb]
      rfl
    · rw [if_neg hb]
      rw [show (BvhNode.Leaf b items : BvhNode α).items = items from rfl]
      cases hres : hitSlice items ray t_min cap with
      | none => rfl
      | some h =>
        exfalso
        apply hb
        have hmem : BvhNode.Leaf b items ∈ (BvhNode.Leaf b items : BvhNode α).subtrees := by
          rw [BvhNode.subtrees]
          exact List.mem_cons_self _ _
        have := hnfp _ hmem cap
          (by rw [show (BvhNode.Leaf b items : BvhNode α).items = items from rfl, hres]; rfl)
        exact this
  | Branch b l r ihl ihr =>
    intro hnfp cap
    have hnfpl : ∀ s ∈ l.subtrees, ∀ c, (hitSlice s.items ray t_min c).isSome →
        s.bounds.hit_by ray t_min c = true := by
      intro s hs
      refine hnfp s ?_
      rw [BvhNode.subtrees]
      exact List.mem_cons_of_mem _ (List.mem_append_left _ hs)
    have hnfpr : ∀ s ∈ r.subtrees, ∀ c, (hitSlice s.items ray t_min c).isSome →
        s.bounds.hit_by ray t_min c = true := by
      intro s hs
      refine hnfp s ?_
      rw [BvhNode.subtrees]
      exact List.mem_cons_of_mem _ (List.mem_append_right _ hs)
    rw [BvhNode.hit]
    by_cases hb : b.hit_by ray t_min cap = true
    · rw [if_pos hb, ihl hnfpl cap]
      have hitems : (BvhNode.Branch b l r).items = l.items ++ r.items := rfl
      rw [hitems]
      conv_rhs => rw [hitSlice]
      rw [hitSliceAux_append ray t_min l.items r.items none cap (Or.inl rfl)]
      rw [show hitSliceAux ray t_min l.items none cap = hitSlice l.items ray t_min cap from rfl]
      cases hl : hitSlice l.items ray t_min cap with
      | some lh =>
        show (match r.hit ray t_min lh.t with
          | some right_hit => some right_hit
          | none => some lh) = hitSliceAux ray t_min r.items (some lh) lh.t
        rw [ihr hnfpr lh.t, hitSliceAux_restart ray t_min r.items lh]
        rw [show hitSlice r.items ray t_min lh.t =
          hitSliceAux ray t_min r.items none lh.t from rfl]
        cases hr2 : hitSliceAux ray t_min r.items none lh.t with
        | some rh => rfl
        | none => rfl
      | none =>
        show r.hit ray t_min cap = hitSliceAux ray t_min r.items none cap
        rw [ihr hnfpr cap]
        rfl
    · rw [if_neg hb]
      cases hres : hitSlice (BvhNode.Branch b l r).items ray t_min cap with
      | none => rfl
      | some h =>
        exfalso
        apply hb
        have hmem : BvhNode.Branch b l r ∈ (BvhNode.Branch b l r : BvhNode α).subtrees := by
          rw [BvhNode.subtrees]
          exact List.mem_cons_self _ _
        exact hnfp _ hmem cap (by rw [hres]; rfl)

/-! ### C1, part 3: window axioms for primitives and scan lemmas -/

/-- Hits returned by a primitive lie within the closed query window. -/
def HitWindowSound {α : Type} [LinearOrder α] (o : Object α) (ray : Ray α) (t_min : α) : Prop :=
  ∀ t_max h, o.hit ray t_min t_max = some h → t_min ≤ h.t ∧ h.t ≤ t_max

/-- Growing the window (same `t_min`) keeps an existing hit: the
primitive answers with the closest of a window-independent candidate
set, as `Sphere::hit` does with its two quadratic roots. -/
def HitGrowStable {α : Type} [LinearOrder α] (o : Object α) (ray : Ray α) (t_min : α) : Prop :=
  ∀ t_max t_max2 h, t_max ≤ t_max2 → o.hit ray t_min t_max = some h →
    o.hit ray t_min t_max2 = some h

/-- Shrinking the window keeps a hit that still lies inside it. -/
def HitShrinkStable {α : Type} [LinearOrder α] (o : Object α) (ray : Ray α) (t_min : α) : Prop :=
  ∀ t_max t_max2 h, o.hit ray t_min t_max = some h → h.t ≤ t_max2 → t_max2 ≤ t_max →
    o.hit ray t_min t_max2 = some h

theorem hitSliceAux_t_le {α : Type} [LinearOrder α] (ray : Ray α) (t_min : α) :
    ∀ (os : List (Object α)), (∀ o ∈ os, HitWindowSound o ray t_min) →
      ∀ (g h : Hit α), hitSliceAux ray t_min os (some g) g.t = some h → h.t ≤ g.t := by
  intro os
  induction os with
  | nil =>
    intro _ g h hgh
    exact le_of_eq (congrArg Hit.t (Option.some_inj.mp hgh)).symm
  | cons o os ih =>
    intro hsound g h
    rw [hitSliceAux]
    cases ho : o.hit ray t_min g.t with
    | some h2 =>
      intro hres
      have h2le : h2.t ≤ g.t := (hsound o (List.mem_cons_self _ _) g.t h2 ho).2
      exact le_trans (ih (fun o2 ho2 => hsound o2 (List.mem_cons_of_mem _ ho2)) h2 h hres) h2le
    | none =>
      intro hres
      exact ih (fun o2 ho2 => hsound o2 (List.mem_cons_of_mem _ ho2)) g h hres

theorem hitSliceAux_sound {α : Type} [LinearOrder α] (ray : Ray α) (t_min t_max : α) :
    ∀ (os : List (Object α)),
      (∀ o ∈ os, HitWindowSound o ray t_min) →
      (∀ o ∈ os, HitGrowStable o ray t_min) →
      ∀ (res : Option (Hit α)) (cap : α), cap ≤ t_max →
      ∀ h, hitSliceAux ray t_min os res cap = some h →
        res = some h ∨ ∃ o ∈ os, o.hit ray t_min t_max = some h := by
  intro os
  induction os with
  | nil =>
    intro _ _ res cap _ h hres
    exact Or.inl hres
  | cons o os ih =>
    intro hsound hgrow res cap hcap h
    rw [hitSliceAux]
    cases ho : o.hit ray t_min cap with
    | some h2 =>
      intro hres
      have h2cap : h2.t ≤ cap := (hsound o (List.mem_cons_self _ _) cap h2 ho).2
      rcases ih (fun o2 ho2 => hsound o2 (List.mem_cons_of_mem _ ho2))
          (fun o2 ho2 => hgrow o2 (List.mem_cons_of_mem _ ho2))
          (some h2) h2.t (le_trans h2cap hcap) h hres with hcase | ⟨o2, ho2, he2⟩
      · refine Or.inr ⟨o, List.mem_cons_self _ _, ?_⟩
        have hh2 : h2 = h := Option.some_inj.mp hcase
        subst hh2
        exact hgrow o (List.mem_cons_self _ _) cap t_max h2 hcap ho
      · exact Or.inr ⟨o2, List.mem_cons_of_mem _ ho2, he2⟩
    | none =>
      intro hres
      rcases ih (fun o2 ho2 => hsound o2 (List.mem_cons_of_mem _ ho2))
          (fun o2 ho2 => hgrow o2 (List.mem_cons_of_mem _ ho2))
          res cap hcap h hres with hcase | ⟨o2, ho2, he2⟩
      · exact Or.inl hcase
      · exact Or.inr ⟨o2, List.mem_cons_of_mem _ ho2, he2⟩

theorem hitSliceAux_complete {α : Type} [LinearOrder α] (ray : Ray α) (t_min t_max : α) :
    ∀ (os : List (Object α)),
      (∀ o ∈ os, HitWindowSound o ray t_min) →
      (∀ o ∈ os, HitShrinkStable o ray t_min) →
      ∀ (res : Option (Hit α)) (cap : α), cap ≤ t_max →
      ((res = none ∧ cap = t_max) ∨ (∃ g, res = some g ∧ cap = g.t)) →
      ∀ o ∈ os, ∀ h2, o.hit ray t_min t_max = some h2 →
        ∃ h, hitSliceAux ray t_min os res cap = some h ∧ h.t ≤ h2.t := by
  intro os
  induction os with
  | nil =>
    intro _ _ res cap _ _ o ho
    exact absurd ho (List.not_mem_nil o)
  | cons a os ih =>
    intro hsound hshrink res cap hcap hinv o ho h2 hh2
    rcases List.mem_cons.mp ho with hoa | hoos
    · subst hoa
      have hh2max : h2.t ≤ t_max := (hsound o (List.mem_cons_self _ _) t_max h2 hh2).2
      by_cases hle : h2.t ≤ cap
      · have ha2 : o.hit ray t_min cap = some h2 :=
          hshrink o (List.mem_cons_self _ _) t_max cap h2 hh2 hle hcap
        rw [hitSliceAux, ha2]
        cases hres2 : hitSliceAux ray t_min os (some h2) h2.t with
        | none => exact absurd hres2 (hitSliceAux_isSome ray t_min os h2 h2.t)
        | some h3 =>
          exact ⟨h3, hres2,
            hitSliceAux_t_le ray t_min os
              (fun o2 ho2 => hsound o2 (List.mem_cons_of_mem _ ho2)) h2 h3 hres2⟩
      · rcases hinv with ⟨hres, hcapmax⟩ | ⟨g, hres, hcapg⟩
        · exact absurd (hcapmax ▸ hh2max) hle
        · subst hres
          subst hcapg
          cases hres2 : hitSliceAux ray t_min (o :: os) (some g) g.t with
          | none => exact absurd hres2 (hitSliceAux_isSome ray t_min (o :: os) g g.t)
          | some h3 =>
            refine ⟨h3, rfl, ?_⟩
            have h3g : h3.t ≤ g.t :=
              hitSliceAux_t_le ray t_min (o :: os) hsound g h3 hres2
            exact le_trans h3g (le_of_lt (lt_of_not_le hle))
    · rw [hitSliceAux]
      cases ha : a.hit ray t_min cap with
      | some g2 =>
        have hg2cap : g2.t ≤ cap := (hsound a (List.mem_cons_self _ _) cap g2 ha).2
        exact ih (fun o2 ho2 => hsound o2 (List.mem_cons_of_mem _ ho2))
          (fun o2 ho2 => hshrink o2 (List.mem_cons_of_mem _ ho2))
          (some g2) g2.t (le_trans hg2cap hcap) (Or.inr ⟨g2, rfl, rfl⟩) o hoos h2 hh2
      | none =>
        exact ih (fun o2 ho2 => hsound o2 (List.mem_cons_of_mem _ ho2))
          (fun o2 ho2 => hshrink o2 (List.mem_cons_of_mem _ ho2))
          res cap hcap hinv o hoos h2 hh2

/-- The result of the brute-force scan is a globally closest hit. -/
def IsClosest {α : Type} [LinearOrder α] (os : List (Object α)) (ray : Ray α)
    (t_min t_max : α) (h : Hit α) : Prop :=
  (∃ o ∈ os, o.hit ray t_min t_max = some h) ∧
  ∀ o ∈ os, ∀ h2, o.hit ray t_min t_max = some h2 → h.t ≤ h2.t

theorem hitSlice_isClosest {α : Type} [LinearOrder α] (ray : Ray α) (t_min t_max : α)
    (os : List (Object α))
    (hsound : ∀ o ∈ os, HitWindowSound o ray t_min)
    (hgrow : ∀ o ∈ os, HitGrowStable o ray t_min)
    (hshrink : ∀ o ∈ os, HitShrinkStable o ray t_min)
    (h : Hit α) (hh : hitSlice os ray t_min t_max = some h) :
    IsClosest os ray t_min t_max h := by
  constructor
  · rcases hitSliceAux_sound ray t_min t_max os hsound hgrow none t_max le_rfl h hh
        with h0 | hex
    · exact absurd h0 (by simp)
    · exact hex
  · intro o ho h2 hh2
    obtain ⟨h3, hh3, hle⟩ := hitSliceAux_complete ray t_min t_max os hsound hshrink
      none t_max le_rfl (Or.inl ⟨rfl, rfl⟩) o ho h2 hh2
    have hh3' : hitSlice os ray t_min t_max = some h3 := hh3
    rw [hh] at hh3'
    rw [Option.some_inj.mp hh3']
    exact hle

theorem hitSlice_eq_none_iff {α : Type} [LinearOrder α] (ray : Ray α) (t_min t_max : α)
    (os : List (Object α))
    (hsound : ∀ o ∈ os, HitWindowSound o ray t_min)
    (hgrow : ∀ o ∈ os, HitGrowStable o ray t_min)
    (hshrink : ∀ o ∈ os, HitShrinkStable o ray t_min) :
    hitSlice os ray t_min t_max = none ↔ ∀ o ∈ os, o.hit ray t_min t_max = none := by
  constructor
  · intro hn o ho
    cases ho2 : o.hit ray t_min t_max with
    | none => rfl
    | some h2 =>
      obtain ⟨h, hh, _⟩ := hitSliceAux_complete ray t_min t_max os hsound hshrink
        none t_max le_rfl (Or.inl ⟨rfl, rfl⟩) o ho h2 ho2
      have hh' : hitSlice os ray t_min t_max = some h := hh
      rw [hn] at hh'
      exact absurd hh' (by simp)
  · intro hall
    cases hres : hitSlice os ray t_min t_max with
    | none => rfl
    | some h =>
      rcases hitSliceAux_sound ray t_min t_max os hsound hgrow none t_max le_rfl h hres
          with h0 | ⟨o, ho, he⟩
      · exact absurd h0 (by simp)
      · rw [hall o ho] at he
        exact absurd he (by simp)

theorem build_items_perm {α : Type} [LinearOrderedField α] (itemsLen : ℕ) :
    ∀ (fuel : ℕ) (iwi : List (ItemWithInfo α)) (n : BvhNode α),
      build itemsLen fuel iwi = some n →
      List.Perm n.items (iwi.map ItemWithInfo.item) := by
  intro fuel
  induction fuel with
  | zero =>
    intro iwi n h
    cases iwi with
    | nil => rw [build] at h; exact absurd h (by simp)
    | cons a l => rw [build] at h; exact absurd h (by simp)
  | succ fuel ih =>
    intro iwi n h
    cases iwi with
    | nil => rw [build] at h; exact absurd h (by simp)
    | cons first rest =>
      rw [build] at h
      by_cases h1 : (first :: rest).length = 1
      · rw [if_pos h1] at h
        have hn : n = BvhNode.Leaf (boundsFold first rest)
            ((first :: rest).map ItemWithInfo.item) := (Option.some_inj.mp h).symm
        rw [hn]
        exact List.Perm.refl _
      · rw [if_neg h1] at h
        by_cases hdeg : (centroidFold first rest).min.get
            (centroidFold first rest).maximum_extent =
            (centroidFold first rest).max.get (centroidFold first rest).maximum_extent
        · rw [if_pos hdeg] at h
          have hn : n = BvhNode.Leaf (boundsFold first rest)
              ((first :: rest).map ItemWithInfo.item) := (Option.some_inj.mp h).symm
          rw [hn]
          exact List.Perm.refl _
        · rw [if_neg hdeg] at h
          by_cases hassert : ((first :: rest).filter
              (goesLeft (centroidFold first rest).maximum_extent
                (centroidFold first rest).centroid)).length < itemsLen
          · rw [if_pos hassert] at h
            cases hbl : build itemsLen fuel ((first :: rest).filter
                (goesLeft (centroidFold first rest).maximum_extent
                  (centroidFold first rest).centroid)) with
            | none =>
              rw [hbl] at h
              exact absurd h (by simp)
            | some ln =>
              cases hbr : build itemsLen fuel ((first :: rest).filter
                  (fun i => !goesLeft (centroidFold first rest).maximum_extent
                    (centroidFold first rest).centroid i)) with
              | none =>
                rw [hbl, hbr] at h
                exact absurd h (by simp)
              | some rn =>
                rw [hbl, hbr] at h
                have hn : n = BvhNode.branch ln rn := (Option.some_inj.mp h).symm
                rw [hn]
                have hl := ih _ ln hbl
                have hr := ih _ rn hbr
                have hitems : (BvhNode.branch ln rn).items = ln.items ++ rn.items := rfl
                rw [hitems]
                refine List.Perm.trans (hl.append hr) ?_
                rw [← List.map_append]
                exact List.Perm.map _ (List.filter_append_perm _ _)
          · rw [if_neg hassert] at h
            exact absurd h (by simp)

theorem mkInfos_map_item {α : Type} [LinearOrderedField α] (os : List (Object α)) :
    (mkInfos os).map ItemWithInfo.item = os := by
  rw [mkInfos, List.map_map]
  have : (ItemWithInfo.item ∘ fun item : Object α =>
      (⟨item.bounds, item.bounds.centroid, item⟩ : ItemWithInfo α)) = id := by
    funext o
    rfl
  rw [this, List.map_id]

/-- Conclusion of the amended C1 claim at given inputs: the BVH
traversal and the brute-force scan return `None` together, and whenever
either returns a hit, that hit is a globally closest one. -/
def BvhEquivSpec {α : Type} [LinearOrderedField α] (os : List (Object α)) (ray : Ray α)
    (t_min t_max : α) : Prop :=
  ((Bvh.fromItems os).hit ray t_min t_max = none ↔ hitSlice os ray t_min t_max = none) ∧
  (∀ h, (Bvh.fromItems os).hit ray t_min t_max = some h → IsClosest os ray t_min t_max h) ∧
  (∀ h, hitSlice os ray t_min t_max = some h → IsClosest os ray t_min t_max h)

/-- C1 (amended): BVH traversal agrees with the brute-force linear scan
— `None` together, and any returned hit is globally closest — for
primitives whose `hit` answers lie in the closed window and behave as
the closest of a window-independent candidate set (grow/shrink stable,
as `Sphere::hit` in exact arithmetic), PROVIDED the slab test never
prunes a subtree whose items contain a hit within the active window.
The proviso is forced by the counterexample: at exact window/slab
boundaries the strict `start < end` emptiness test prunes a box whose
sphere is still hit by the closed window test. -/
theorem bvh_hit_equals_bruteforce {α : Type} [LinearOrderedField α]
    (os : List (Object α)) (ray : Ray α) (t_min t_max : α)
    (hsound : ∀ o ∈ os, HitWindowSound o ray t_min)
    (hgrow : ∀ o ∈ os, HitGrowStable o ray t_min)
    (hshrink : ∀ o ∈ os, HitShrinkStable o ray t_min)
    (hnfp : ∀ node, Bvh.fromItems os = Bvh.Node node →
      ∀ s ∈ node.subtrees, ∀ cap, (hitSlice s.items ray t_min cap).isSome →
        s.bounds.hit_by ray t_min cap = true) :
    BvhEquivSpec os ray t_min t_max := by
  cases os with
  | nil =>
    refine ⟨by simp [Bvh.fromItems, Bvh.hit, hitSlice, hitSliceAux], ?_, ?_⟩
    · intro h hcontra
      rw [show (Bvh.fromItems ([] : List (Object α))).hit ray t_min t_max = none from rfl]
        at hcontra
      exact absurd hcontra (by simp)
    · intro h hcontra
      rw [show hitSlice ([] : List (Object α)) ray t_min t_max = none from rfl] at hcontra
      exact absurd hcontra (by simp)
  | cons a l =>
    have hlen : (mkInfos (a :: l)).length = (a :: l).length := by simp [mkInfos]
    have hsome := build_isSome (a :: l).length (a :: l).length (mkInfos (a :: l))
      (by simp [mkInfos]) (le_of_eq hlen) (le_of_eq hlen)
    obtain ⟨node, hbuild⟩ := Option.isSome_iff_exists.mp hsome
    have hnode : Bvh.fromItems (a :: l) = Bvh.Node node := by
      show (match build (a :: l).length (a :: l).length (mkInfos (a :: l)) with
        | some n => Bvh.Node n
        | none => Bvh.Empty) = _
      rw [hbuild]
    have hperm : List.Perm node.items (a :: l) := by
      have hp := build_items_perm (a :: l).length (a :: l).length (mkInfos (a :: l)) node hbuild
      rw [mkInfos_map_item] at hp
      exact hp
    have hmem : ∀ o : Object α, o ∈ node.items ↔ o ∈ (a :: l) := fun o => hperm.mem_iff
    have hsound2 : ∀ o ∈ node.items, HitWindowSound o ray t_min :=
      fun o ho => hsound o ((hmem o).mp ho)
    have hgrow2 : ∀ o ∈ node.items, HitGrowStable o ray t_min :=
      fun o ho => hgrow o ((hmem o).mp ho)
    have hshrink2 : ∀ o ∈ node.items, HitShrinkStable o ray t_min :=
      fun o ho => hshrink o ((hmem o).mp ho)
    have htrav : (Bvh.fromItems (a :: l)).hit ray t_min t_max =
        hitSlice node.items ray t_min t_max := by
      rw [hnode]
      show node.hit ray t_min t_max = _
      exact bvhNode_hit_eq_hitSlice ray t_min node (hnfp node hnode) t_max
    refine ⟨?_, ?_, ?_⟩
    · rw [htrav, hitSlice_eq_none_iff ray t_min t_max node.items hsound2 hgrow2 hshrink2,
        hitSlice_eq_none_iff ray t_min t_max (a :: l) hsound hgrow hshrink]
      exact ⟨fun hall o ho => hall o ((hmem o).mpr ho),
        fun hall o ho => hall o ((hmem o).mp ho)⟩
    · intro h hh
      rw [htrav] at hh
      have hc := hitSlice_isClosest ray t_min t_max node.items hsound2 hgrow2 hshrink2 h hh
      obtain ⟨⟨o, ho, he⟩, hmin⟩ := hc
      exact ⟨⟨o, (hmem o).mp ho, he⟩,
        fun o2 ho2 h2 hh2 => hmin o2 ((hmem o2).mpr ho2) h2 hh2⟩
    · intro h hh
      exact hitSlice_isClosest ray t_min t_max (a :: l) hsound hgrow hshrink h hh

/-- Witness ray over `ℚ`. -/
def someRayQ : Ray ℚ :=
  ⟨⟨0, 0, 0⟩, ⟨1, 0, 0⟩⟩

theorem bvh_hit_equals_bruteforce_witness :
    ((∀ o ∈ [oNoneQ], HitWindowSound o someRayQ 0) ∧
     (∀ o ∈ [oNoneQ], HitGrowStable o someRayQ 0) ∧
     (∀ o ∈ [oNoneQ], HitShrinkStable o someRayQ 0) ∧
     (∀ node, Bvh.fromItems [oNoneQ] = Bvh.Node node →
       ∀ s ∈ node.subtrees, ∀ cap, (hitSlice s.items someRayQ 0 cap).isSome →
         s.bounds.hit_by someRayQ 0 cap = true)) ∧
    BvhEquivSpec [oNoneQ] someRayQ 0 1 := by
  have hs : ∀ o ∈ [oNoneQ], HitWindowSound o someRayQ 0 := by
    intro o ho
    rw [List.mem_singleton] at ho
    subst ho
    intro t_max h hcontra
    exact absurd hcontra (by simp [oNoneQ])
  have hg : ∀ o ∈ [oNoneQ], HitGrowStable o someRayQ 0 := by
    intro o ho
    rw [List.mem_singleton] at ho
    subst ho
    intro t_max t_max2 h _ hcontra
    exact absurd hcontra (by simp [oNoneQ])
  have hh : ∀ o ∈ [oNoneQ], HitShrinkStable o someRayQ 0 := by
    intro o ho
    rw [List.mem_singleton] at ho
    subst ho
    intro t_max t_max2 h hcontra _ _
    exact absurd hcontra (by simp [oNoneQ])
  have hnodeval : Bvh.fromItems [oNoneQ] =
      Bvh.Node (BvhNode.Leaf (Bounds3.point Vec3.origin) [oNoneQ]) := rfl
  have hnfp : ∀ node, Bvh.fromItems [oNoneQ] = Bvh.Node node →
      ∀ s ∈ node.subtrees, ∀ cap, (hitSlice s.items someRayQ 0 cap).isSome →
        s.bounds.hit_by someRayQ 0 cap = true := by
    intro node hnode s hsub cap hsome
    rw [hnodeval] at hnode
    have hnode2 : node = BvhNode.Leaf (Bounds3.point Vec3.origin) [oNoneQ] :=
      (Bvh.Node.inj hnode).symm
    subst hnode2
    rw [BvhNode.subtrees] at hsub
    have hseq : s = BvhNode.Leaf (Bounds3.point Vec3.origin) [oNoneQ] :=
      List.mem_singleton.mp hsub
    subst hseq
    have hnone : hitSlice
        (BvhNode.Leaf (Bounds3.point Vec3.origin) [oNoneQ] : BvhNode ℚ).items
        someRayQ 0 cap = none := rfl
    rw [hnone] at hsome
    exact absurd hsome (by simp)
  exact ⟨⟨hs, hg, hh, hnfp⟩,
    bvh_hit_equals_bruteforce [oNoneQ] someRayQ 0 1 hs hg hh hnfp⟩

end RT
